import Mathlib

/-!
Shallow embedding of `panoptes_aggregation/reducers/user_skill_reducer.py`
(the user-skill reducer of the aggregation-for-caesar repository).

Numeric values (Python floats / numpy float64) are modelled as exact
rationals `ℚ`; Python lists as `List`; Python strings (class labels, mode
and strategy names) as `List Char`, written as string literals converted
with `String.toList`.  The per-extract record (a dict of class-label keys
with integer indicator values plus a nested feedback block) is the
structure `Extract`.  The lookup `FEEDBACK_STRATEGIES[strategy][0]` lives
in a module outside the sources under verification, so the ground-truth
label list read by the code as `extract['feedback']['true_' + key]` is
carried directly in the field `trueValues`; the field `strategy` mirrors
`extract['feedback']['strategy']`.

Python dicts built as `{key: value for key, value in zip(classes, values)}`
are modelled as the association list `classes.zip values`; in every
configuration exercised here the key list is duplicate-free, so first-match
lookup agrees with Python dict semantics.

Fallible paths are modelled with `Except String`: the error strings name
the Python exception that the corresponding statement raises
(IndexError at `extracts[0]`, UnboundLocalError when the mode / strategy
dispatch falls through every branch, sklearn's ValueError on
inconsistent sample lengths).
-/

namespace UserSkill

/-- Python strings are modelled as their character lists. -/
abbrev Label := List Char

/-- Python lexicographic string comparison (by code point). -/
def labelLe : Label → Label → Bool
  | [], _ => true
  | _ :: _, [] => false
  | a :: as, b :: bs => if a = b then labelLe as bs else decide (a < b)

/-- Insertion step of the sort used to model `np.sort` on string arrays. -/
def insertL (a : Label) : List Label → List Label
  | [] => [a]
  | b :: l => if labelLe a b then a :: b :: l else b :: insertL a l

/-- Insertion sort modelling `np.sort` on string arrays. -/
def sortL : List Label → List Label
  | [] => []
  | a :: l => insertL a (sortL l)

/-- Embedding of `np.sort(np.unique(l))`: the sorted list of the distinct
elements of l. -/
def sortU (l : List Label) : List Label := sortL l.dedup

/-- Embedding of `str.lower()` (labels here are ASCII). -/
def lowerL (s : Label) : Label := s.map Char.toLower

/-- DIFFICULTY_FLOOR = 0.05 from the source. -/
def DIFFICULTY_FLOOR : ℚ := 1/20

/-- The epsilon 1.e-16 added to denominators before division. -/
def EPS : ℚ := 1/(10^16)

/-- One classification extract: the integer-valued top-level keys (label,
value) in insertion order, the feedback strategy string, the ground-truth
labels of the feedback block, and the success list (binary mode). -/
structure Extract where
  answers : List (Label × Int)
  strategy : Label
  trueValues : List Label
  success : List Int
deriving DecidableEq, Repr

/-- One relevant reduction: the subject difficulty array
`reduction['data']['difficulty']`. -/
structure Reduction where
  difficulty : List ℚ
deriving DecidableEq, Repr

/-- numpy mean of a list (the claims only use it on nonempty lists). -/
def npMean (l : List ℚ) : ℚ := l.sum / (l.length : ℚ)

/-- Embedding of `np.min(arr, initial=0)`: the reduction starts from the
initial value 0, which therefore participates in the minimum. -/
def npMinInitial0 (l : List ℚ) : ℚ := l.foldl min 0

/-- Line 172/224: `np.max([np.min(arr[arr > 0], initial=0), DIFFICULTY_FLOOR])`. -/
def difficultyMin (ws : List ℚ) : ℚ :=
  max (npMinInitial0 (ws.filter (fun w => 0 < w))) DIFFICULTY_FLOOR

/-- In-place replacement `arr[arr == 0] = m`. -/
def replaceZeros (ws : List ℚ) (m : ℚ) : List ℚ :=
  ws.map (fun w => if w = 0 then m else w)

/-- Modelled from the spec (section 4.1), for comparison with the code:
`floor = max( min(w[i] for w[i] > 0), DIFFICULTY_FLOOR )`, and
`DIFFICULTY_FLOOR` alone when no strictly positive value exists. -/
def specFloor (ws : List ℚ) : ℚ :=
  match ws.filter (fun w => 0 < w) with
  | [] => DIFFICULTY_FLOOR
  | p :: ps => max ((p :: ps).foldl min p) DIFFICULTY_FLOOR

/-- The user-chosen labels of an extract: keys with integer value 1,
lower-cased (line 260/314). -/
def chosenOf (e : Extract) : List Label :=
  (e.answers.filter (fun p => p.2 = 1)).map (fun p => lowerL p.1)

/-- All integer-valued keys of an extract, lower-cased (line 156). -/
def intKeysOf (e : Extract) : List Label :=
  e.answers.map (fun p => lowerL p.1)

/-- The ground-truth labels, lower-cased (line 157/261/315). -/
def trueOf (e : Extract) : List Label :=
  e.trueValues.map lowerL

/-- Embedding of Python `classi.index(v)` (first index of v in classi;
every v looked up here occurs in classi by construction, so `list.index`
never raises). -/
def pyIndex (classi : List Label) (v : Label) : ℕ :=
  @List.indexOf Label instBEqOfDecidableEq v classi

/-- Lines 271-282: start from `[null_class] * len(classi)` and assign
`slots[classi.index(v)] = v` for each v of vals. -/
def fillSlots (classi : List Label) (vals : List Label) (nullc : Label) : List Label :=
  vals.foldl (fun acc v => acc.set (pyIndex classi v) v) (List.replicate classi.length nullc)

/-- The local class set of one extract in many-to-many mode (lines 264-266). -/
def localClasses (e : Extract) : List Label :=
  sortU (trueOf e ++ chosenOf e)

/-- True-label slots of one extract in many-to-many mode. -/
def multiTrueRow (e : Extract) (nullc : Label) : List Label :=
  fillSlots (localClasses e) (trueOf e) nullc

/-- Chosen-label slots of one extract in many-to-many mode. -/
def multiChosenRow (e : Extract) (nullc : Label) : List Label :=
  fillSlots (localClasses e) (chosenOf e) nullc

/-- Per-slot weights of one extract (lines 296-299): the subject difficulty,
replaced by `max(1 - d, DIFFICULTY_FLOOR)` at slots where the true and
chosen entries differ. -/
def multiWeights (e : Extract) (d : ℚ) (nullc : Label) : List ℚ :=
  (List.range (localClasses e).length).map (fun i =>
    if (multiTrueRow e nullc).getD i [] = (multiChosenRow e nullc).getD i []
    then d else max (1 - d) DIFFICULTY_FLOOR)

/-- Embedding of `get_multi_class` (lines 253-303): eds pairs each extract
with its (already floor-substituted) subject difficulty, modelling
`enumerate(extracts)` together with `subject_difficulty[j]`. -/
def getMultiClass (eds : List (Extract × ℚ)) (nullc : Label) :
    List Label × List Label × List ℚ :=
  (eds.flatMap (fun p => multiTrueRow p.1 nullc),
   eds.flatMap (fun p => multiChosenRow p.1 nullc),
   eds.flatMap (fun p => multiWeights p.1 p.2 nullc))

/-- Embedding of `get_one_to_one` (lines 306-332). -/
def getOneToOne (eds : List (Extract × ℚ)) :
    List Label × List Label × List ℚ :=
  (eds.flatMap (fun p => trueOf p.1),
   eds.flatMap (fun p => chosenOf p.1),
   eds.map (fun p =>
     if chosenOf p.1 = trueOf p.1 then max p.2 DIFFICULTY_FLOOR
     else max (1 - p.2) DIFFICULTY_FLOOR))

/-- One cell of the sklearn confusion matrix without sample weights: the
number of (true, chosen) pairs equal to (t, c). -/
def cmCell (pairs : List (Label × Label)) (t c : Label) : ℚ :=
  (pairs.countP (fun p => p.1 == t && p.2 == c) : ℚ)

/-- Embedding of `sklearn.metrics.confusion_matrix(trues, chosens,
labels=labels)`: pairs whose labels fall outside the vocabulary are
ignored. -/
def cmSimple (trues chosens : List Label) (labels : List Label) : List (List ℚ) :=
  labels.map (fun t => labels.map (fun c => cmCell (trues.zip chosens) t c))

/-- One cell of the confusion matrix with sample weights. -/
def cmWCell (triples : List ((Label × Label) × ℚ)) (t c : Label) : ℚ :=
  ((triples.filter (fun p => p.1.1 == t && p.1.2 == c)).map (fun p => p.2)).sum

/-- Embedding of the sample-weighted sklearn confusion matrix. -/
def cmWeighted (trues chosens : List Label) (weights : List ℚ)
    (labels : List Label) : List (List ℚ) :=
  labels.map (fun t => labels.map (fun c => cmWCell ((trues.zip chosens).zip weights) t c))

/-- Embedding of `get_user_skill_binary` (lines 198-250).  The returned
matrices are the transposed ones of `return confusion_simple.T, ...`, so
the success count sits at row 0 column 0 and the failure count at row 0
column 1. -/
def getUserSkillBinary (extracts : List Extract) (reds : List Reduction) :
    List (List ℚ) × List (List ℚ) :=
  let ers := extracts.zip reds
  let successes := ers.flatMap (fun p => p.1.success)
  let difficulties0 := ers.flatMap (fun p => p.2.difficulty.map (fun d => 1 - d))
  let dmin := difficultyMin difficulties0
  let difficulties := replaceZeros difficulties0 dmin
  let sd := successes.zip difficulties
  let nSucc : ℚ := (successes.countP (fun s => s == 1) : ℚ)
  let nFail : ℚ := (successes.countP (fun s => s == 0) : ℚ)
  let wSucc : ℚ := ((sd.filter (fun p => p.1 == 1)).map (fun p => p.2)).sum
  let negDifficulty :=
    replaceZeros ((sd.filter (fun p => p.1 == 0)).map (fun p => 1 - p.2)) dmin
  let wFail : ℚ := negDifficulty.sum
  ([[nSucc, nFail], [0, 0]], [[wSucc, wFail], [0, 0]])

/-- The intermediate data handed from the confusion-matrix stage to the
skill stage: class vocabulary, simple matrix, weighted matrix. -/
structure Core where
  classes : List Label
  cs : List (List ℚ)
  cw : List (List ℚ)
deriving DecidableEq, Repr

/-- Embedding of `get_confusion_matrix` for the non-binary modes
(lines 140-195).  The empty batch raises IndexError at `extracts[0]`;
an unknown mode leaves `true_counts` unbound, raising UnboundLocalError
at line 189 after the class vocabulary and difficulty weights are
computed; sklearn raises ValueError when the label and weight lists have
inconsistent lengths. -/
def getConfusionMatrixK (extracts : List Extract) (reds : List Reduction)
    (mode : Label) (nullc : Label) : Except String Core :=
  match extracts with
  | [] => .error "IndexError"
  | _ :: _ =>
    let classes := sortU (extracts.flatMap intKeysOf ++ extracts.flatMap trueOf)
    let sdiff0 := reds.map (fun r => 1 - npMean r.difficulty)
    let dmin := difficultyMin sdiff0
    let sdiff := replaceZeros sdiff0 dmin
    let eds := extracts.zip sdiff
    if mode = "one-to-one".toList then
      let tcw := getOneToOne eds
      if tcw.1.length = tcw.2.1.length ∧ tcw.2.1.length = tcw.2.2.length then
        .ok ⟨classes, cmSimple tcw.1 tcw.2.1 classes, cmWeighted tcw.1 tcw.2.1 tcw.2.2 classes⟩
      else .error "ValueError"
    else if mode = "many-to-many".toList then
      let tcw := getMultiClass eds nullc
      let classes2 := classes ++ [nullc]
      .ok ⟨classes2, cmSimple tcw.1 tcw.2.1 classes2, cmWeighted tcw.1 tcw.2.1 tcw.2.2 classes2⟩
    else .error "UnboundLocalError"

/-- The diagonal of a matrix, `M.diagonal()`. -/
def diagonal (M : List (List ℚ)) : List ℚ :=
  (List.range M.length).map (fun i => (M.getD i []).getD i 0)

/-- Row sums, `np.sum(M, axis=1)`. -/
def rowSums (M : List (List ℚ)) : List ℚ := M.map List.sum

/-- Per-class skill: `M.diagonal() / (np.sum(M, axis=1) + 1.e-16)`
(lines 74-75). -/
def skillsOf (M : List (List ℚ)) : List ℚ :=
  ((diagonal M).zip (rowSums M)).map (fun p => p.1 / (p.2 + EPS))

/-- The result record returned by the reducer (line 97-104); dicts are
modelled as association lists in class order. -/
structure SkillOutput where
  classes : List Label
  confusionSimple : List (List ℚ)
  weightedSkill : List (Label × ℚ)
  skill : List (Label × ℚ)
  count : List (Label × ℚ)
  meanSkill : ℚ
  levelUp : Bool
deriving DecidableEq, Repr

/-- Python dict access `d[k]` on a dict modelled as an association list
(keys looked up are always present here). -/
def dictGet (d : List (Label × ℚ)) (k : Label) : ℚ := (d.lookup k).getD 0

/-- The weighted-skill dict of line 77: classes zipped with the weighted
per-class skills. -/
def wsdOf (core : Core) : List (Label × ℚ) := core.classes.zip (skillsOf core.cw)

/-- The skill dict of line 78. -/
def sdOf (core : Core) : List (Label × ℚ) := core.classes.zip (skillsOf core.cs)

/-- The count dict of line 79: classes zipped with the row sums of the
simple confusion matrix. -/
def cdOf (core : Core) : List (Label × ℚ) := core.classes.zip (rowSums core.cs)

/-- The class removed before the mean skill / level-up checks (lines
82-89): the literal False in binary mode, the null class otherwise. -/
def exclClass (mode nullc : Label) : Label :=
  if mode = "binary".toList then "False".toList else nullc

/-- Line 83/87: classes with the excluded class removed. -/
def nullRemovedClassesOf (core : Core) (excl : Label) : List Label :=
  core.classes.filter (fun c => c ≠ excl)

/-- Line 84/88: counts of the classes with the excluded class removed. -/
def nullRemovedCountsOf (core : Core) (excl : Label) : List ℚ :=
  ((cdOf core).filter (fun p => p.1 ≠ excl)).map (fun p => p.2)

/-- Line 85/89: the mean of the weighted skills over the non-excluded
classes, with the epsilon guard in the denominator. -/
def meanSkillOf (core : Core) (excl : Label) : ℚ :=
  ((nullRemovedClassesOf core excl).map (fun k => dictGet (wsdOf core) k)).sum /
    (((nullRemovedClassesOf core excl).length : ℚ) + EPS)

/-- The count condition shared by both strategies (lines 93/95). -/
def countsOk (core : Core) (excl : Label) (cnt : ℚ) : Bool :=
  (nullRemovedCountsOf core excl).all (fun c => decide (cnt ≤ c))

/-- The strategy-independent part of `user_skill_reducer` (lines 66-71),
paired with the list of pipeline stages completed so far, in statement
order, used to express when a failure surfaces. -/
def corePipeline (extracts : List Extract) (reds : List Reduction)
    (mode : Label) (nullc : Label) : List String × Except String Core :=
  if mode = "binary".toList then
    let cscw := getUserSkillBinary extracts reds
    (["confusion_matrices"], .ok ⟨["True".toList, "False".toList], cscw.1, cscw.2⟩)
  else
    match getConfusionMatrixK extracts reds mode nullc with
    | .ok c => (["classes_and_weights", "confusion_matrices"], .ok c)
    | .error e =>
      (if extracts = [] then [] else ["classes_and_weights"], .error e)

/-- The skill / count / level-up part of `user_skill_reducer`
(lines 74-104) on a computed Core.  An unknown strategy leaves `level_up`
unbound, raising UnboundLocalError at the return statement, after every
skill quantity has been computed. -/
def finishOutput (core : Core) (mode : Label) (nullc : Label)
    (thr cnt : ℚ) (strategy : Label) : Except String SkillOutput :=
  let excl := exclClass mode nullc
  if strategy = "mean".toList then
    .ok ⟨core.classes, core.cs, wsdOf core, sdOf core, cdOf core, meanSkillOf core excl,
      decide (thr ≤ meanSkillOf core excl) && countsOk core excl cnt⟩
  else if strategy = "all".toList then
    .ok ⟨core.classes, core.cs, wsdOf core, sdOf core, cdOf core, meanSkillOf core excl,
      (nullRemovedClassesOf core excl).all (fun s => decide (thr ≤ dictGet (wsdOf core) s)) &&
        countsOk core excl cnt⟩
  else .error "UnboundLocalError"

/-- Embedding of `user_skill_reducer` (lines 22-104), with the list of
completed pipeline stages. -/
def userSkillReducerT (extracts : List Extract) (reds : List Reduction)
    (mode nullc : Label) (thr cnt : ℚ) (strategy : Label) :
    List String × Except String SkillOutput :=
  match corePipeline extracts reds mode nullc with
  | (stages, .error e) => (stages, .error e)
  | (stages, .ok core) =>
    (stages ++ ["skills"], finishOutput core mode nullc thr cnt strategy)

/-- The reducer as called by Caesar: just the result. -/
def userSkillReducer (extracts : List Extract) (reds : List Reduction)
    (mode nullc : Label) (thr cnt : ℚ) (strategy : Label) :
    Except String SkillOutput :=
  (userSkillReducerT extracts reds mode nullc thr cnt strategy).2

/-- Modelled from the spec (section 3, "consumed as their mean"), for
comparison with the binary-mode code: same pipeline as
`getUserSkillBinary`, but each difficulty record enters as the mean of
its difficulty sequence, repeated once per success entry of the aligned
extract. -/
def getUserSkillBinaryMeanSpec (extracts : List Extract) (reds : List Reduction) :
    List (List ℚ) × List (List ℚ) :=
  let ers := extracts.zip reds
  let successes := ers.flatMap (fun p => p.1.success)
  let difficulties0 := ers.flatMap (fun p => p.1.success.map (fun _ => 1 - npMean p.2.difficulty))
  let dmin := difficultyMin difficulties0
  let difficulties := replaceZeros difficulties0 dmin
  let sd := successes.zip difficulties
  let nSucc : ℚ := (successes.countP (fun s => s == 1) : ℚ)
  let nFail : ℚ := (successes.countP (fun s => s == 0) : ℚ)
  let wSucc : ℚ := ((sd.filter (fun p => p.1 == 1)).map (fun p => p.2)).sum
  let negDifficulty :=
    replaceZeros ((sd.filter (fun p => p.1 == 0)).map (fun p => 1 - p.2)) dmin
  let wFail : ℚ := negDifficulty.sum
  ([[nSucc, nFail], [0, 0]], [[wSucc, wFail], [0, 0]])

/-- One invocation of the reducer with all of its arguments. -/
structure ReducerCall where
  extracts : List Extract
  reds : List Reduction
  mode : Label
  nullc : Label
  thr : ℚ
  cnt : ℚ
  strategy : Label

/-- Running one call. -/
def runCall (a : ReducerCall) : Except String SkillOutput :=
  userSkillReducer a.extracts a.reds a.mode a.nullc a.thr a.cnt a.strategy

/-- Running a sequence of independent invocations in order. -/
def runInvocations (calls : List ReducerCall) : List (Except String SkillOutput) :=
  calls.map runCall

end UserSkill

namespace UserSkill

/-! ### Helper lemmas -/

theorem foldl_min_le_init (l : List ℚ) : ∀ a : ℚ, l.foldl min a ≤ a := by
  induction l with
  | nil => intro a; simp
  | cons x t ih =>
    intro a
    simpa using le_trans (ih (min a x)) (min_le_left a x)

theorem difficultyMin_eq_floor (ws : List ℚ) : difficultyMin ws = DIFFICULTY_FLOOR := by
  unfold difficultyMin npMinInitial0
  exact max_eq_right (le_trans (foldl_min_le_init _ 0) (by norm_num [DIFFICULTY_FLOOR]))

theorem insertL_perm (a : Label) (l : List Label) : List.Perm (insertL a l) (a :: l) := by
  induction l with
  | nil => rfl
  | cons b t ih =>
    unfold insertL
    split
    · rfl
    · exact (ih.cons b).trans (List.Perm.swap a b t)

theorem sortL_perm (l : List Label) : List.Perm (sortL l) l := by
  induction l with
  | nil => rfl
  | cons a t ih => exact (insertL_perm a (sortL t)).trans (ih.cons a)

theorem mem_sortU {a : Label} {l : List Label} : a ∈ sortU l ↔ a ∈ l := by
  unfold sortU
  rw [(sortL_perm _).mem_iff, List.mem_dedup]

theorem nodup_sortU (l : List Label) : (sortU l).Nodup :=
  ((sortL_perm l.dedup).nodup_iff).2 (List.nodup_dedup l)

theorem foldl_set_length (classi : List Label) (vals : List Label) :
    ∀ acc : List Label,
      (vals.foldl (fun a v => a.set (pyIndex classi v) v) acc).length = acc.length := by
  induction vals with
  | nil => intro acc; rfl
  | cons v rest ih =>
    intro acc
    simpa using ih (acc.set (pyIndex classi v) v)

theorem length_fillSlots (classi vals : List Label) (nullc : Label) :
    (fillSlots classi vals nullc).length = classi.length := by
  unfold fillSlots
  rw [foldl_set_length]
  simp

theorem fillSlots_aux (classi : List Label) (hnd : classi.Nodup) :
    ∀ vals : List Label, (∀ v ∈ vals, v ∈ classi) →
      ∀ (F : ℕ → Label) (acc : List Label), acc.length = classi.length →
        (∀ j, j < classi.length → acc[j]? = some (F j)) →
        ∀ i, i < classi.length →
          (vals.foldl (fun a v => a.set (pyIndex classi v) v) acc)[i]? =
            some (if classi.getD i [] ∈ vals then classi.getD i [] else F i) := by
  intro vals
  induction vals with
  | nil =>
    intro _ F acc _ hacc i hi
    simpa using hacc i hi
  | cons v rest ih =>
    intro hsub F acc hlen hacc i hi
    have hv : v ∈ classi := hsub v (List.mem_cons_self v rest)
    have hidx : pyIndex classi v < classi.length := by
      unfold pyIndex
      exact List.indexOf_lt_length.2 hv
    have hstep : ∀ j, j < classi.length →
        (acc.set (pyIndex classi v) v)[j]? =
          some (if classi.getD j [] = v then v else F j) := by
      intro j hj
      rw [List.getElem?_set]
      by_cases hje : pyIndex classi v = j
      · subst hje
        rw [if_pos rfl, if_pos (hlen ▸ hidx)]
        have hgv : classi.getD (pyIndex classi v) [] = v := by
          rw [List.getD_eq_getElem?_getD, List.getElem?_eq_getElem hidx]
          simp [pyIndex]
        rw [hgv]
        simp
      · rw [if_neg hje, hacc j hj]
        have hne : classi.getD j [] ≠ v := by
          intro hEq
          apply hje
          have hgd : classi.getD j [] = classi[j] := by
            rw [List.getD_eq_getElem?_getD, List.getElem?_eq_getElem hj]
            rfl
          rw [hgd] at hEq
          have hio := List.indexOf_getElem hnd j hj
          rw [hEq] at hio
          unfold pyIndex
          exact hio
        rw [if_neg hne]
    have hrec := ih (fun w hw => hsub w (List.mem_cons_of_mem v hw))
        (fun j => if classi.getD j [] = v then v else F j)
        (acc.set (pyIndex classi v) v) (by simpa using hlen) hstep i hi
    rw [List.foldl_cons, hrec]
    show some (if classi.getD i [] ∈ rest then classi.getD i []
        else if classi.getD i [] = v then v else F i) =
      some (if classi.getD i [] ∈ v :: rest then classi.getD i [] else F i)
    by_cases h1 : classi.getD i [] ∈ rest
    · rw [if_pos h1, if_pos (List.mem_cons_of_mem v h1)]
    · by_cases h2 : classi.getD i [] = v
      · rw [if_neg h1, if_pos h2, if_pos (by rw [h2]; exact List.mem_cons_self v rest), h2]
      · rw [if_neg h1, if_neg h2, if_neg (by
          intro hmem
          rcases List.mem_cons.1 hmem with h | h
          · exact h2 h
          · exact h1 h)]

theorem fillSlots_eq_map (classi : List Label) (hnd : classi.Nodup)
    (vals : List Label) (hsub : ∀ v ∈ vals, v ∈ classi) (nullc : Label) :
    fillSlots classi vals nullc =
      classi.map (fun c => if c ∈ vals then c else nullc) := by
  apply List.ext_getElem?
  intro i
  by_cases hi : i < classi.length
  · have hmain := fillSlots_aux classi hnd vals hsub (fun _ => nullc)
        (List.replicate classi.length nullc) (by simp)
        (fun j hj => by simp [List.getElem?_replicate_of_lt hj]) i hi
    unfold fillSlots
    rw [hmain, List.getElem?_map, List.getElem?_eq_getElem hi]
    simp [List.getElem?_eq_getElem hi]
  · have h1 : (fillSlots classi vals nullc)[i]? = none := by
      rw [List.getElem?_eq_none]
      rw [length_fillSlots]
      omega
    have h2 : (classi.map (fun c => if c ∈ vals then c else nullc))[i]? = none := by
      rw [List.getElem?_eq_none]
      simp only [List.length_map]
      omega
    rw [h1, h2]

theorem multiTrueRow_eq_map (e : Extract) (nullc : Label) :
    multiTrueRow e nullc =
      (localClasses e).map (fun c => if c ∈ trueOf e then c else nullc) :=
  fillSlots_eq_map _ (nodup_sortU _) _
    (fun _ hv => mem_sortU.2 (List.mem_append_left _ hv)) _

theorem multiChosenRow_eq_map (e : Extract) (nullc : Label) :
    multiChosenRow e nullc =
      (localClasses e).map (fun c => if c ∈ chosenOf e then c else nullc) :=
  fillSlots_eq_map _ (nodup_sortU _) _
    (fun _ hv => mem_sortU.2 (List.mem_append_right _ hv)) _

theorem multiWeights_eq_map (e : Extract) (d : ℚ) (nullc : Label) :
    multiWeights e d nullc = (localClasses e).map (fun c =>
      if (if c ∈ trueOf e then c else nullc) = (if c ∈ chosenOf e then c else nullc)
      then d else max (1 - d) DIFFICULTY_FLOOR) := by
  unfold multiWeights
  rw [multiTrueRow_eq_map, multiChosenRow_eq_map]
  apply List.ext_getElem?
  intro i
  by_cases hi : i < (localClasses e).length
  · rw [List.getElem?_map, List.getElem?_map, List.getElem?_range hi,
      List.getElem?_eq_getElem hi]
    have hT : ((localClasses e).map (fun c => if c ∈ trueOf e then c else nullc)).getD i []
        = (if (localClasses e)[i] ∈ trueOf e then (localClasses e)[i] else nullc) := by
      rw [List.getD_eq_getElem?_getD, List.getElem?_map, List.getElem?_eq_getElem hi]
      rfl
    have hC : ((localClasses e).map (fun c => if c ∈ chosenOf e then c else nullc)).getD i []
        = (if (localClasses e)[i] ∈ chosenOf e then (localClasses e)[i] else nullc) := by
      rw [List.getD_eq_getElem?_getD, List.getElem?_map, List.getElem?_eq_getElem hi]
      rfl
    show some _ = some _
    simp only [hT, hC]
  · have h1 : ((List.range (localClasses e).length).map (fun i =>
        if ((localClasses e).map (fun c => if c ∈ trueOf e then c else nullc)).getD i []
            = ((localClasses e).map (fun c => if c ∈ chosenOf e then c else nullc)).getD i []
        then d else max (1 - d) DIFFICULTY_FLOOR))[i]? = none := by
      rw [List.getElem?_eq_none]
      simp only [List.length_map, List.length_range]
      omega
    have h2 : ((localClasses e).map (fun c =>
        if (if c ∈ trueOf e then c else nullc) = (if c ∈ chosenOf e then c else nullc)
        then d else max (1 - d) DIFFICULTY_FLOOR))[i]? = none := by
      rw [List.getElem?_eq_none]
      simp only [List.length_map]
      omega
    rw [h1, h2]

end UserSkill


namespace UserSkill

/-! ### Evaluation helpers -/

theorem corePipeline_binary (extracts : List Extract) (reds : List Reduction)
    (nullc : Label) :
    corePipeline extracts reds "binary".toList nullc =
      (["confusion_matrices"],
       .ok ⟨["True".toList, "False".toList],
            (getUserSkillBinary extracts reds).1, (getUserSkillBinary extracts reds).2⟩) := by
  unfold corePipeline
  rw [if_pos rfl]

theorem userSkillReducer_eval (extracts : List Extract) (reds : List Reduction)
    (mode nullc : Label) (thr cnt : ℚ) (strategy : Label) (core : Core)
    (hcore : (corePipeline extracts reds mode nullc).2 = .ok core) :
    userSkillReducer extracts reds mode nullc thr cnt strategy =
      finishOutput core mode nullc thr cnt strategy := by
  unfold userSkillReducer userSkillReducerT
  rcases h : corePipeline extracts reds mode nullc with ⟨st, r⟩
  rw [h] at hcore
  rcases r with e | c
  · exact absurd hcore (by simp)
  · simp only at hcore
    rw [Except.ok.injEq] at hcore
    subst hcore
    rfl

theorem getConfusionMatrixK_m2m (e0 : Extract) (es : List Extract)
    (reds : List Reduction) (nullc : Label) :
    getConfusionMatrixK (e0 :: es) reds "many-to-many".toList nullc =
      (let extracts := e0 :: es
       let classes := sortU (extracts.flatMap intKeysOf ++ extracts.flatMap trueOf)
       let sdiff := replaceZeros (reds.map (fun r => 1 - npMean r.difficulty)) DIFFICULTY_FLOOR
       let tcw := getMultiClass (extracts.zip sdiff) nullc
       .ok ⟨classes ++ [nullc], cmSimple tcw.1 tcw.2.1 (classes ++ [nullc]),
            cmWeighted tcw.1 tcw.2.1 tcw.2.2 (classes ++ [nullc])⟩) := by
  simp only [getConfusionMatrixK, difficultyMin_eq_floor]
  simp

theorem getConfusionMatrixK_o2o (e0 : Extract) (es : List Extract)
    (reds : List Reduction) (nullc : Label)
    (hlen : (getOneToOne ((e0 :: es).zip
        (replaceZeros (reds.map (fun r => 1 - npMean r.difficulty)) DIFFICULTY_FLOOR))).1.length =
        (getOneToOne ((e0 :: es).zip
        (replaceZeros (reds.map (fun r => 1 - npMean r.difficulty)) DIFFICULTY_FLOOR))).2.1.length ∧
      (getOneToOne ((e0 :: es).zip
        (replaceZeros (reds.map (fun r => 1 - npMean r.difficulty)) DIFFICULTY_FLOOR))).2.1.length =
        (getOneToOne ((e0 :: es).zip
        (replaceZeros (reds.map (fun r => 1 - npMean r.difficulty)) DIFFICULTY_FLOOR))).2.2.length) :
    getConfusionMatrixK (e0 :: es) reds "one-to-one".toList nullc =
      (let extracts := e0 :: es
       let classes := sortU (extracts.flatMap intKeysOf ++ extracts.flatMap trueOf)
       let sdiff := replaceZeros (reds.map (fun r => 1 - npMean r.difficulty)) DIFFICULTY_FLOOR
       let tcw := getOneToOne (extracts.zip sdiff)
       .ok ⟨classes, cmSimple tcw.1 tcw.2.1 classes,
            cmWeighted tcw.1 tcw.2.1 tcw.2.2 classes⟩) := by
  simp only [getConfusionMatrixK, difficultyMin_eq_floor]
  simp [if_pos hlen]

theorem skillsOf_single (a : ℚ) : skillsOf [[a]] = [a / (a + EPS)] := by
  simp [skillsOf, diagonal, rowSums, List.range_succ]

theorem skillsOf_pair (a b c d : ℚ) :
    skillsOf [[a, b], [c, d]] = [a / (a + b + EPS), d / (c + d + EPS)] := by
  simp [skillsOf, diagonal, rowSums, List.range_succ]

theorem skillsOf_triple (m : List (List ℚ)) (a b c d e f g h i : ℚ)
    (hm : m = [[a, b, c], [d, e, f], [g, h, i]]) :
    skillsOf m = [a / (a + b + c + EPS), e / (d + e + f + EPS), i / (g + h + i + EPS)] := by
  subst hm
  simp [skillsOf, diagonal, rowSums, List.range_succ]
  all_goals constructor
  all_goals try constructor
  all_goals ring_nf

theorem corePipeline_kclass (extracts : List Extract) (reds : List Reduction)
    (mode nullc : Label) (h : mode ≠ "binary".toList) (core : Core)
    (hk : getConfusionMatrixK extracts reds mode nullc = .ok core) :
    (corePipeline extracts reds mode nullc).2 = .ok core := by
  unfold corePipeline
  rw [if_neg h, hk]

theorem cmSimple_eq_of_count (trues chosens labels : List Label) (m : List (List ℕ))
    (h : labels.map (fun t => labels.map
        (fun c => (trues.zip chosens).countP (fun p => p.1 == t && p.2 == c))) = m) :
    cmSimple trues chosens labels = m.map (fun r => r.map (Nat.cast : ℕ → ℚ)) := by
  subst h
  simp [cmSimple, cmCell, List.map_map, Function.comp]

theorem finishOutput_mean (core : Core) (mode nullc : Label) (thr cnt : ℚ) :
    finishOutput core mode nullc thr cnt "mean".toList =
      .ok ⟨core.classes, core.cs, wsdOf core, sdOf core, cdOf core,
        meanSkillOf core (exclClass mode nullc),
        decide (thr ≤ meanSkillOf core (exclClass mode nullc)) &&
          countsOk core (exclClass mode nullc) cnt⟩ := by
  unfold finishOutput
  rw [if_pos rfl]

theorem finishOutput_all (core : Core) (mode nullc : Label) (thr cnt : ℚ) :
    finishOutput core mode nullc thr cnt "all".toList =
      .ok ⟨core.classes, core.cs, wsdOf core, sdOf core, cdOf core,
        meanSkillOf core (exclClass mode nullc),
        (nullRemovedClassesOf core (exclClass mode nullc)).all
            (fun s => decide (thr ≤ dictGet (wsdOf core) s)) &&
          countsOk core (exclClass mode nullc) cnt⟩ := by
  unfold finishOutput
  rw [if_neg (by decide), if_pos rfl]

theorem finishOutput_mean_isOk (core : Core) (mode nullc : Label) (thr cnt : ℚ) :
    ∃ out, finishOutput core mode nullc thr cnt "mean".toList = .ok out ∧
      out.count = core.classes.zip (rowSums core.cs) := by
  rw [finishOutput_mean]
  exact ⟨_, rfl, rfl⟩

theorem finishOutput_ok_fields (core : Core) (mode nullc : Label) (thr cnt : ℚ)
    (strategy : Label) (out : SkillOutput)
    (h : finishOutput core mode nullc thr cnt strategy = .ok out) :
    out.classes = core.classes ∧ out.confusionSimple = core.cs ∧
    out.weightedSkill = wsdOf core ∧ out.skill = sdOf core ∧ out.count = cdOf core ∧
    out.meanSkill = meanSkillOf core (exclClass mode nullc) := by
  unfold finishOutput at h
  split at h
  · rw [Except.ok.injEq] at h
    rw [← h]
    exact ⟨rfl, rfl, rfl, rfl, rfl, rfl⟩
  · split at h
    · rw [Except.ok.injEq] at h
      rw [← h]
      exact ⟨rfl, rfl, rfl, rfl, rfl, rfl⟩
    · exact absurd h (by simp)

theorem userSkillReducer_ok_inv (extracts : List Extract) (reds : List Reduction)
    (mode nullc : Label) (thr cnt : ℚ) (strategy : Label) (out : SkillOutput)
    (h : userSkillReducer extracts reds mode nullc thr cnt strategy = .ok out) :
    ∃ core, (corePipeline extracts reds mode nullc).2 = .ok core ∧
      finishOutput core mode nullc thr cnt strategy = .ok out := by
  unfold userSkillReducer userSkillReducerT at h
  rcases hc : corePipeline extracts reds mode nullc with ⟨st, r⟩
  rw [hc] at h
  rcases r with err | core
  · exact absurd h (by simp)
  · exact ⟨core, rfl, h⟩

theorem corePipeline_ok_binary (extracts : List Extract) (reds : List Reduction)
    (nullc : Label) (core : Core)
    (h : (corePipeline extracts reds "binary".toList nullc).2 = .ok core) :
    core = ⟨["True".toList, "False".toList], (getUserSkillBinary extracts reds).1,
      (getUserSkillBinary extracts reds).2⟩ := by
  rw [corePipeline_binary] at h
  rw [Except.ok.injEq] at h
  exact h.symm

theorem corePipeline_ok_kclass (extracts : List Extract) (reds : List Reduction)
    (mode nullc : Label) (core : Core) (hm : mode ≠ "binary".toList)
    (h : (corePipeline extracts reds mode nullc).2 = .ok core) :
    getConfusionMatrixK extracts reds mode nullc = .ok core := by
  unfold corePipeline at h
  rw [if_neg hm] at h
  rcases hk : getConfusionMatrixK extracts reds mode nullc with err | c
  · rw [hk] at h
    exact absurd h (by simp)
  · rw [hk] at h
    exact h

theorem getCMK_m2m_ok_inv (extracts : List Extract) (reds : List Reduction)
    (nullc : Label) (core : Core)
    (h : getConfusionMatrixK extracts reds "many-to-many".toList nullc = .ok core) :
    ∃ e0 es, extracts = e0 :: es ∧
      core.classes =
        sortU (extracts.flatMap intKeysOf ++ extracts.flatMap trueOf) ++ [nullc] ∧
      core.cs = cmSimple
        (getMultiClass (extracts.zip (replaceZeros
          (reds.map (fun r => 1 - npMean r.difficulty)) DIFFICULTY_FLOOR)) nullc).1
        (getMultiClass (extracts.zip (replaceZeros
          (reds.map (fun r => 1 - npMean r.difficulty)) DIFFICULTY_FLOOR)) nullc).2.1
        core.classes ∧
      core.cw = cmWeighted
        (getMultiClass (extracts.zip (replaceZeros
          (reds.map (fun r => 1 - npMean r.difficulty)) DIFFICULTY_FLOOR)) nullc).1
        (getMultiClass (extracts.zip (replaceZeros
          (reds.map (fun r => 1 - npMean r.difficulty)) DIFFICULTY_FLOOR)) nullc).2.1
        (getMultiClass (extracts.zip (replaceZeros
          (reds.map (fun r => 1 - npMean r.difficulty)) DIFFICULTY_FLOOR)) nullc).2.2
        core.classes := by
  cases extracts with
  | nil => exact absurd h (by simp [getConfusionMatrixK])
  | cons e0 es =>
    rw [getConfusionMatrixK_m2m] at h
    rw [Except.ok.injEq] at h
    refine ⟨e0, es, rfl, ?_, ?_, ?_⟩
    · rw [← h]
    · rw [← h]
    · rw [← h]


theorem cmSimple_length (t c labels : List Label) :
    (cmSimple t c labels).length = labels.length := by
  simp [cmSimple]

theorem cmWeighted_length (t c : List Label) (w : List ℚ) (labels : List Label) :
    (cmWeighted t c w labels).length = labels.length := by
  simp [cmWeighted]

theorem skillsOf_length (M : List (List ℚ)) : (skillsOf M).length = M.length := by
  simp [skillsOf, diagonal, rowSums]

theorem dictGet_zip_zero (c : Label) :
    ∀ (keys : List Label) (vals : List ℚ),
      keys.length = vals.length → c ∈ keys →
      (∀ i : ℕ, keys[i]? = some c → vals[i]? = some 0) →
      dictGet (keys.zip vals) c = 0 := by
  intro keys
  induction keys with
  | nil => intro vals _ hc; cases hc
  | cons k ks ih =>
    intro vals hlen hc hval
    cases vals with
    | nil => simp at hlen
    | cons v vs =>
      by_cases hk : k = c
      · have h0 := hval 0 (by simp [hk])
        simp only [List.getElem?_cons_zero, Option.some.injEq] at h0
        subst h0
        simp [dictGet, List.lookup, List.zip_cons_cons,
          show (c == k) = true from by simp [hk]]
      · have hc2 : c ∈ ks := by
          rcases List.mem_cons.1 hc with h | h
          · exact absurd h.symm hk
          · exact h
        have := ih vs (by simpa using hlen) hc2
          (fun i hi => by simpa using hval (i + 1) (by simpa using hi))
        simpa [dictGet, List.lookup, List.zip_cons_cons,
          show (c == k) = false from by simp [Ne.symm hk]] using this

theorem getD_zero_of_all_zero (l : List ℚ) (h : ∀ x ∈ l, x = 0) (i : ℕ) :
    l.getD i 0 = 0 := by
  rw [List.getD_eq_getElem?_getD]
  cases hx : l[i]? with
  | none => rfl
  | some x =>
    obtain ⟨hlt, hxe⟩ := List.getElem?_eq_some.1 hx
    simp [h x (hxe ▸ List.getElem_mem hlt)]

theorem skills_row_zero (trues chosens : List Label) (labels : List Label)
    (c : Label) (i : ℕ) (hc : labels[i]? = some c) (hnot : ∀ x ∈ trues, x ≠ c) :
    (skillsOf (cmSimple trues chosens labels))[i]? = some 0 := by
  obtain ⟨hi, hgc⟩ := List.getElem?_eq_some.1 hc
  have hrow : (cmSimple trues chosens labels)[i]? =
      some (labels.map (fun cc => cmCell (trues.zip chosens) c cc)) := by
    unfold cmSimple
    rw [List.getElem?_map, List.getElem?_eq_getElem hi, hgc]
    rfl
  have hcell : ∀ cc, cmCell (trues.zip chosens) c cc = 0 := by
    intro cc
    unfold cmCell
    rw [show (trues.zip chosens).countP (fun p => p.1 == c && p.2 == cc) = 0 from
      List.countP_eq_zero.2 (fun p hp => by
        have hpt : p.1 ∈ trues := (List.of_mem_zip hp).1
        simp [show (p.1 == c) = false from beq_eq_false_iff_ne.2 (hnot p.1 hpt)])]
    rfl
  have hzero : ∀ x ∈ labels.map (fun cc => cmCell (trues.zip chosens) c cc), x = 0 := by
    intro x hx
    rcases List.mem_map.1 hx with ⟨cc, _, hcc⟩
    rw [← hcc, hcell]
  have hdiag : (diagonal (cmSimple trues chosens labels))[i]? = some 0 := by
    unfold diagonal
    rw [List.getElem?_map, List.getElem?_range (by rw [cmSimple_length]; exact hi)]
    have hgd : (cmSimple trues chosens labels).getD i [] =
        labels.map (fun cc => cmCell (trues.zip chosens) c cc) := by
      rw [List.getD_eq_getElem?_getD, hrow]
      rfl
    show some _ = some 0
    simp only [hgd]
    rw [getD_zero_of_all_zero _ hzero]
  have hrs : (rowSums (cmSimple trues chosens labels))[i]? = some 0 := by
    unfold rowSums
    rw [List.getElem?_map, hrow]
    show some _ = some 0
    rw [List.sum_eq_zero hzero]
  unfold skillsOf
  rw [List.getElem?_map,
    (@List.getElem?_zip_eq_some ℚ ℚ (diagonal (cmSimple trues chosens labels))
      (rowSums (cmSimple trues chosens labels)) (0, 0) i).2 ⟨hdiag, hrs⟩]
  simp [EPS]

theorem skills_row_zero_weighted (trues chosens : List Label) (weights : List ℚ)
    (labels : List Label) (c : Label) (i : ℕ) (hc : labels[i]? = some c)
    (hnot : ∀ x ∈ trues, x ≠ c) :
    (skillsOf (cmWeighted trues chosens weights labels))[i]? = some 0 := by
  obtain ⟨hi, hgc⟩ := List.getElem?_eq_some.1 hc
  have hrow : (cmWeighted trues chosens weights labels)[i]? =
      some (labels.map (fun cc => cmWCell ((trues.zip chosens).zip weights) c cc)) := by
    unfold cmWeighted
    rw [List.getElem?_map, List.getElem?_eq_getElem hi, hgc]
    rfl
  have hcell : ∀ cc, cmWCell ((trues.zip chosens).zip weights) c cc = 0 := by
    intro cc
    unfold cmWCell
    rw [show ((trues.zip chosens).zip weights).filter
        (fun p => p.1.1 == c && p.1.2 == cc) = [] from
      List.filter_eq_nil_iff.2 (fun p hp => by
        have hpt : p.1.1 ∈ trues := (List.of_mem_zip (List.of_mem_zip hp).1).1
        simp [show (p.1.1 == c) = false from beq_eq_false_iff_ne.2 (hnot p.1.1 hpt)])]
    rfl
  have hzero : ∀ x ∈ labels.map (fun cc => cmWCell ((trues.zip chosens).zip weights) c cc),
      x = 0 := by
    intro x hx
    rcases List.mem_map.1 hx with ⟨cc, _, hcc⟩
    rw [← hcc, hcell]
  have hdiag : (diagonal (cmWeighted trues chosens weights labels))[i]? = some 0 := by
    unfold diagonal
    rw [List.getElem?_map, List.getElem?_range
      (by simpa [cmWeighted] using hi)]
    have hgd : (cmWeighted trues chosens weights labels).getD i [] =
        labels.map (fun cc => cmWCell ((trues.zip chosens).zip weights) c cc) := by
      rw [List.getD_eq_getElem?_getD, hrow]
      rfl
    show some _ = some 0
    simp only [hgd]
    rw [getD_zero_of_all_zero _ hzero]
  have hrs : (rowSums (cmWeighted trues chosens weights labels))[i]? = some 0 := by
    unfold rowSums
    rw [List.getElem?_map, hrow]
    show some _ = some 0
    rw [List.sum_eq_zero hzero]
  unfold skillsOf
  rw [List.getElem?_map,
    (@List.getElem?_zip_eq_some ℚ ℚ (diagonal (cmWeighted trues chosens weights labels))
      (rowSums (cmWeighted trues chosens weights labels)) (0, 0) i).2 ⟨hdiag, hrs⟩]
  simp [EPS]

theorem length_mul_le_sum (l : List ℚ) (x : ℚ) (h : ∀ y ∈ l, x ≤ y) :
    (l.length : ℚ) * x ≤ l.sum := by
  induction l with
  | nil => simp
  | cons a t ih =>
    have h1 := h a (List.mem_cons_self a t)
    have h2 := ih (fun y hy => h y (List.mem_cons_of_mem a hy))
    simp only [List.length_cons, List.sum_cons]
    push_cast
    nlinarith [h1, h2]

theorem getD_nonneg_of (l : List ℚ) (h : ∀ x ∈ l, 0 ≤ x) (i : ℕ) : 0 ≤ l.getD i 0 := by
  rw [List.getD_eq_getElem?_getD]
  cases hx : l[i]? with
  | none => simp
  | some x =>
    obtain ⟨hlt, hxe⟩ := List.getElem?_eq_some.1 hx
    simpa using h x (hxe ▸ List.getElem_mem hlt)

theorem getD_le_sum (l : List ℚ) (h : ∀ x ∈ l, 0 ≤ x) (i : ℕ) : l.getD i 0 ≤ l.sum := by
  rw [List.getD_eq_getElem?_getD]
  cases hx : l[i]? with
  | none => simpa using List.sum_nonneg h
  | some x =>
    obtain ⟨hlt, hxe⟩ := List.getElem?_eq_some.1 hx
    simpa using List.single_le_sum h x (hxe ▸ List.getElem_mem hlt)

theorem skillsOf_mem_bounds (M : List (List ℚ)) (h : ∀ row ∈ M, ∀ x ∈ row, 0 ≤ x) :
    ∀ v ∈ skillsOf M, 0 ≤ v ∧ v ≤ 1 := by
  intro v hv
  unfold skillsOf at hv
  rcases List.mem_map.1 hv with ⟨pr, hpr, hveq⟩
  obtain ⟨i, hpi⟩ := List.getElem?_of_mem hpr
  obtain ⟨hdg, hrs⟩ := List.getElem?_zip_eq_some.1 hpi
  unfold rowSums at hrs
  rw [List.getElem?_map] at hrs
  cases hm : M[i]? with
  | none =>
    rw [hm] at hrs
    exact absurd hrs (by simp)
  | some row =>
    rw [hm] at hrs
    have hsum : row.sum = pr.2 := by simpa using hrs
    obtain ⟨hlt, hMe⟩ := List.getElem?_eq_some.1 hm
    unfold diagonal at hdg
    rw [List.getElem?_map, List.getElem?_range hlt] at hdg
    have hMgd : M.getD i [] = row := by
      rw [List.getD_eq_getElem?_getD, hm]
      rfl
    have hd2 : row.getD i 0 = pr.1 := by
      have h5 : some ((M.getD i []).getD i 0) = some pr.1 := by simpa using hdg
      rw [hMgd] at h5
      exact Option.some.inj h5
    have hrow_nonneg : ∀ x ∈ row, 0 ≤ x := h row (hMe ▸ List.getElem_mem hlt)
    have h1 : 0 ≤ pr.1 := hd2 ▸ getD_nonneg_of row hrow_nonneg i
    have h2 : pr.1 ≤ pr.2 := by
      rw [← hd2, ← hsum]
      exact getD_le_sum row hrow_nonneg i
    have hs0 : 0 ≤ pr.2 := le_trans h1 h2
    have hEp : (0:ℚ) < EPS := by norm_num [EPS]
    rw [← hveq]
    constructor
    · exact div_nonneg h1 (by linarith)
    · rw [div_le_one (by linarith)]
      linarith

theorem cmSimple_nonneg (t c labels : List Label) :
    ∀ row ∈ cmSimple t c labels, ∀ x ∈ row, 0 ≤ x := by
  intro row hrow x hx
  rcases List.mem_map.1 hrow with ⟨tt, _, hteq⟩
  rw [← hteq] at hx
  rcases List.mem_map.1 hx with ⟨cc, _, hceq⟩
  rw [← hceq]
  unfold cmCell
  exact Nat.cast_nonneg _

theorem cmWeighted_nonneg (t c : List Label) (w : List ℚ) (labels : List Label)
    (hw : ∀ x ∈ w, 0 ≤ x) :
    ∀ row ∈ cmWeighted t c w labels, ∀ x ∈ row, 0 ≤ x := by
  intro row hrow x hx
  rcases List.mem_map.1 hrow with ⟨tt, _, hteq⟩
  rw [← hteq] at hx
  rcases List.mem_map.1 hx with ⟨cc, _, hceq⟩
  rw [← hceq]
  unfold cmWCell
  apply List.sum_nonneg
  intro y hy
  rcases List.mem_map.1 hy with ⟨trip, htrip, hyeq⟩
  rw [← hyeq]
  exact hw trip.2 (List.of_mem_zip (List.mem_of_mem_filter htrip)).2

theorem npMean_le_one (l : List ℚ) (h : ∀ x ∈ l, x ≤ 1) : npMean l ≤ 1 := by
  unfold npMean
  rcases l with _ | ⟨a, t⟩
  · simp
  · have hlen : (0:ℚ) < (((a :: t).length : ℕ) : ℚ) := by
      exact_mod_cast Nat.succ_pos t.length
    rw [div_le_one hlen]
    have hnsmul := List.sum_le_card_nsmul (a :: t) 1 h
    simpa [nsmul_eq_mul] using hnsmul

theorem replaceZeros_nonneg (ws : List ℚ) (m : ℚ) (hm : 0 ≤ m)
    (hws : ∀ w ∈ ws, w ≠ 0 → 0 ≤ w) : ∀ x ∈ replaceZeros ws m, 0 ≤ x := by
  intro x hx
  unfold replaceZeros at hx
  rcases List.mem_map.1 hx with ⟨w, hw, hweq⟩
  rw [← hweq]
  by_cases hz : w = 0
  · rw [if_pos hz]
    exact hm
  · rw [if_neg hz]
    exact hws w hw hz

theorem replaceZeros_le_one (ws : List ℚ) (m : ℚ) (hm : m ≤ 1)
    (hws : ∀ w ∈ ws, w ≤ 1) : ∀ x ∈ replaceZeros ws m, x ≤ 1 := by
  intro x hx
  unfold replaceZeros at hx
  rcases List.mem_map.1 hx with ⟨w, hw, hweq⟩
  rw [← hweq]
  by_cases hz : w = 0
  · rw [if_pos hz]
    exact hm
  · rw [if_neg hz]
    exact hws w hw

theorem sdiff0_nonneg (reds : List Reduction)
    (hd : ∀ red ∈ reds, ∀ x ∈ red.difficulty, 0 ≤ x ∧ x ≤ 1) :
    ∀ w ∈ reds.map (fun r => 1 - npMean r.difficulty), 0 ≤ w := by
  intro w hw
  rcases List.mem_map.1 hw with ⟨red, hred, hweq⟩
  rw [← hweq]
  have := npMean_le_one red.difficulty (fun x hx => (hd red hred x hx).2)
  linarith

theorem getOneToOne_weights_nonneg (eds : List (Extract × ℚ)) :
    ∀ x ∈ (getOneToOne eds).2.2, 0 ≤ x := by
  intro x hx
  unfold getOneToOne at hx
  rcases List.mem_map.1 hx with ⟨p, _, hpeq⟩
  rw [← hpeq]
  have hfl : (0:ℚ) ≤ DIFFICULTY_FLOOR := by norm_num [DIFFICULTY_FLOOR]
  split
  · exact le_trans hfl (le_max_right _ _)
  · exact le_trans hfl (le_max_right _ _)

theorem getMultiClass_weights_nonneg (eds : List (Extract × ℚ)) (nullc : Label)
    (hd : ∀ p ∈ eds, 0 ≤ p.2) :
    ∀ x ∈ (getMultiClass eds nullc).2.2, 0 ≤ x := by
  intro x hx
  unfold getMultiClass at hx
  rcases List.mem_flatMap.1 hx with ⟨p, hp, hxp⟩
  unfold multiWeights at hxp
  rcases List.mem_map.1 hxp with ⟨i, _, hieq⟩
  rw [← hieq]
  have hfl : (0:ℚ) ≤ DIFFICULTY_FLOOR := by norm_num [DIFFICULTY_FLOOR]
  split
  · exact hd p hp
  · exact le_trans hfl (le_max_right _ _)

theorem binary_matrices_nonneg (extracts : List Extract) (reds : List Reduction)
    (hd : ∀ red ∈ reds, ∀ x ∈ red.difficulty, 0 ≤ x ∧ x ≤ 1) :
    (∀ row ∈ (getUserSkillBinary extracts reds).1, ∀ x ∈ row, 0 ≤ x) ∧
    (∀ row ∈ (getUserSkillBinary extracts reds).2, ∀ x ∈ row, 0 ≤ x) := by
  have hd0 : ∀ w ∈ (extracts.zip reds).flatMap
      (fun p => p.2.difficulty.map (fun d => 1 - d)), 0 ≤ w ∧ w ≤ 1 := by
    intro w hw
    rcases List.mem_flatMap.1 hw with ⟨p, hp, hwp⟩
    rcases List.mem_map.1 hwp with ⟨d, hdm, hdeq⟩
    have hb := hd p.2 (List.of_mem_zip hp).2 d hdm
    rw [← hdeq]
    constructor <;> linarith [hb.1, hb.2]
  have hfl0 : (0:ℚ) ≤ difficultyMin ((extracts.zip reds).flatMap
      (fun p => p.2.difficulty.map (fun d => 1 - d))) := by
    rw [difficultyMin_eq_floor]
    norm_num [DIFFICULTY_FLOOR]
  have hfl1 : difficultyMin ((extracts.zip reds).flatMap
      (fun p => p.2.difficulty.map (fun d => 1 - d))) ≤ 1 := by
    rw [difficultyMin_eq_floor]
    norm_num [DIFFICULTY_FLOOR]
  have hdiff : ∀ x ∈ replaceZeros ((extracts.zip reds).flatMap
      (fun p => p.2.difficulty.map (fun d => 1 - d)))
      (difficultyMin ((extracts.zip reds).flatMap
        (fun p => p.2.difficulty.map (fun d => 1 - d)))), 0 ≤ x ∧ x ≤ 1 := by
    intro x hx
    exact ⟨replaceZeros_nonneg _ _ hfl0 (fun w hw _ => (hd0 w hw).1) x hx,
      replaceZeros_le_one _ _ hfl1 (fun w hw => (hd0 w hw).2) x hx⟩
  obtain ⟨a, b, c, d, heq, ha, hb, hc, hdd⟩ :
      ∃ a b c d, getUserSkillBinary extracts reds = ([[a, b], [0, 0]], [[c, d], [0, 0]]) ∧
        0 ≤ a ∧ 0 ≤ b ∧ 0 ≤ c ∧ 0 ≤ d := by
    refine ⟨_, _, _, _, rfl, Nat.cast_nonneg _, Nat.cast_nonneg _, ?_, ?_⟩
    · apply List.sum_nonneg
      intro y hy
      rcases List.mem_map.1 hy with ⟨p, hpm, hyeq⟩
      rw [← hyeq]
      exact (hdiff p.2 (List.of_mem_zip (List.mem_of_mem_filter hpm)).2).1
    · apply List.sum_nonneg
      intro y hy
      apply replaceZeros_nonneg _ _ hfl0 _ y hy
      intro w hw _
      rcases List.mem_map.1 hw with ⟨p, hpm, hweq⟩
      have hp2 := (hdiff p.2 (List.of_mem_zip (List.mem_of_mem_filter hpm)).2).2
      rw [← hweq]
      linarith
  rw [heq]
  constructor
  · intro row hrow x hx
    rcases List.mem_cons.1 hrow with h1 | h1
    · subst h1
      rcases List.mem_cons.1 hx with h2 | h2
      · exact h2 ▸ ha
      · rcases List.mem_singleton.1 h2 with rfl
        exact hb
    · rcases List.mem_singleton.1 h1 with rfl
      have hx0 : x = 0 := by simpa using hx
      simp [hx0]
  · intro row hrow x hx
    rcases List.mem_cons.1 hrow with h1 | h1
    · subst h1
      rcases List.mem_cons.1 hx with h2 | h2
      · exact h2 ▸ hc
      · rcases List.mem_singleton.1 h2 with rfl
        exact hdd
    · rcases List.mem_singleton.1 h1 with rfl
      have hx0 : x = 0 := by simpa using hx
      simp [hx0]

theorem getCMK_matrices_nonneg (extracts : List Extract) (reds : List Reduction)
    (mode nullc : Label) (core : Core)
    (hd : ∀ red ∈ reds, ∀ x ∈ red.difficulty, 0 ≤ x ∧ x ≤ 1)
    (h : getConfusionMatrixK extracts reds mode nullc = .ok core) :
    (∀ row ∈ core.cs, ∀ x ∈ row, 0 ≤ x) ∧ (∀ row ∈ core.cw, ∀ x ∈ row, 0 ≤ x) := by
  cases extracts with
  | nil => exact absurd h (by simp [getConfusionMatrixK])
  | cons e0 es =>
    have hsd : ∀ d ∈ replaceZeros (reds.map (fun r => 1 - npMean r.difficulty))
        (difficultyMin (reds.map (fun r => 1 - npMean r.difficulty))), 0 ≤ d := by
      apply replaceZeros_nonneg
      · rw [difficultyMin_eq_floor]
        norm_num [DIFFICULTY_FLOOR]
      · exact fun w hw _ => sdiff0_nonneg reds hd w hw
    simp only [getConfusionMatrixK] at h
    split at h
    · split at h
      · rw [Except.ok.injEq] at h
        rw [← h]
        exact ⟨cmSimple_nonneg _ _ _,
          cmWeighted_nonneg _ _ _ _ (getOneToOne_weights_nonneg _)⟩
      · exact absurd h (by simp)
    · split at h
      · rw [Except.ok.injEq] at h
        rw [← h]
        refine ⟨cmSimple_nonneg _ _ _, cmWeighted_nonneg _ _ _ _ ?_⟩
        apply getMultiClass_weights_nonneg
        intro p hp
        exact hsd p.2 (List.of_mem_zip hp).2
      · exact absurd h (by simp)

theorem multiTrue_mem (eds : List (Extract × ℚ)) (nullc : Label) (x : Label)
    (hx : x ∈ (getMultiClass eds nullc).1) :
    x = nullc ∨ ∃ p ∈ eds, x ∈ trueOf p.1 := by
  unfold getMultiClass at hx
  rcases List.mem_flatMap.1 hx with ⟨p, hp, hxp⟩
  rw [multiTrueRow_eq_map] at hxp
  rcases List.mem_map.1 hxp with ⟨cc, _, hcc⟩
  by_cases hmem : cc ∈ trueOf p.1
  · rw [if_pos hmem] at hcc
    exact Or.inr ⟨p, hp, hcc ▸ hmem⟩
  · rw [if_neg hmem] at hcc
    exact Or.inl hcc.symm

end UserSkill

namespace UserSkill

/-! ### C4 support: singleton-judgment batches -/

theorem sortU_pair_same (t : Label) : sortU [t, t] = [t] := by
  unfold sortU
  rw [List.dedup_cons_of_mem (by simp), List.dedup_cons_of_not_mem (by simp),
    List.dedup_nil]
  rfl

theorem sortU_pair_ne (t c : Label) (h : t ≠ c) :
    sortU [t, c] = if labelLe t c then [t, c] else [c, t] := by
  unfold sortU
  rw [List.dedup_cons_of_not_mem (by simp [h]), List.dedup_cons_of_not_mem (by simp),
    List.dedup_nil]
  show insertL t [c] = _
  unfold insertL
  split <;> rfl

theorem multi_singleton_same (e : Extract) (d : ℚ) (nullc t : Label)
    (ht : trueOf e = [t]) (hc : chosenOf e = [t]) :
    multiTrueRow e nullc = [t] ∧ multiChosenRow e nullc = [t] ∧
    multiWeights e d nullc = [d] := by
  have hl : localClasses e = [t] := by
    unfold localClasses
    rw [ht, hc]
    exact sortU_pair_same t
  refine ⟨?_, ?_, ?_⟩
  · rw [multiTrueRow_eq_map, hl, ht]
    simp
  · rw [multiChosenRow_eq_map, hl, hc]
    simp
  · rw [multiWeights_eq_map, hl, ht, hc]
    simp

theorem multi_singleton_ne (e : Extract) (d : ℚ) (nullc t c : Label)
    (ht : trueOf e = [t]) (hc : chosenOf e = [c]) (hne : t ≠ c)
    (htn : t ≠ nullc) (hcn : c ≠ nullc) :
    (multiTrueRow e nullc = [t, nullc] ∧ multiChosenRow e nullc = [nullc, c] ∨
     multiTrueRow e nullc = [nullc, t] ∧ multiChosenRow e nullc = [c, nullc]) ∧
    multiWeights e d nullc =
      [max (1 - d) DIFFICULTY_FLOOR, max (1 - d) DIFFICULTY_FLOOR] := by
  have hl : localClasses e = if labelLe t c then [t, c] else [c, t] := by
    unfold localClasses
    rw [ht, hc]
    exact sortU_pair_ne t c hne
  by_cases hle : labelLe t c = true
  · rw [if_pos hle] at hl
    refine ⟨Or.inl ⟨?_, ?_⟩, ?_⟩
    · rw [multiTrueRow_eq_map, hl, ht]
      simp [hne.symm]
    · rw [multiChosenRow_eq_map, hl, hc]
      simp [hne]
    · rw [multiWeights_eq_map, hl, ht, hc]
      simp [hne, hne.symm, htn, hcn, htn.symm, hcn.symm]
  · rw [if_neg hle] at hl
    refine ⟨Or.inr ⟨?_, ?_⟩, ?_⟩
    · rw [multiTrueRow_eq_map, hl, ht]
      simp [hne.symm]
    · rw [multiChosenRow_eq_map, hl, hc]
      simp [hne]
    · rw [multiWeights_eq_map, hl, ht, hc]
      simp [hne, hne.symm, htn, hcn, htn.symm, hcn.symm]

theorem chosen_subset_intKeys (e : Extract) : ∀ x ∈ chosenOf e, x ∈ intKeysOf e := by
  intro x hx
  unfold chosenOf at hx
  unfold intKeysOf
  rcases List.mem_map.1 hx with ⟨p, hp, rfl⟩
  exact List.mem_map.2 ⟨p, List.mem_of_mem_filter hp, rfl⟩

theorem multiChosen_mem (eds : List (Extract × ℚ)) (nullc : Label) (x : Label)
    (hx : x ∈ (getMultiClass eds nullc).2.1) :
    x = nullc ∨ ∃ p ∈ eds, x ∈ chosenOf p.1 := by
  unfold getMultiClass at hx
  rcases List.mem_flatMap.1 hx with ⟨p, hp, hxp⟩
  rw [multiChosenRow_eq_map] at hxp
  rcases List.mem_map.1 hxp with ⟨cc, _, hcc⟩
  by_cases hmem : cc ∈ chosenOf p.1
  · rw [if_pos hmem] at hcc
    exact Or.inr ⟨p, hp, hcc ▸ hmem⟩
  · rw [if_neg hmem] at hcc
    exact Or.inl hcc.symm

theorem sdiff_floor_le (reds : List Reduction)
    (hdm : ∀ r ∈ reds,
      1 - npMean r.difficulty = 0 ∨ DIFFICULTY_FLOOR ≤ 1 - npMean r.difficulty) :
    ∀ d ∈ replaceZeros (reds.map (fun r => 1 - npMean r.difficulty)) DIFFICULTY_FLOOR,
      DIFFICULTY_FLOOR ≤ d := by
  intro d hd
  unfold replaceZeros at hd
  rcases List.mem_map.1 hd with ⟨w, hw, rfl⟩
  rcases List.mem_map.1 hw with ⟨r, hr, rfl⟩
  by_cases h0 : 1 - npMean r.difficulty = 0
  · rw [if_pos h0]
  · rw [if_neg h0]
    rcases hdm r hr with h | h
    · exact absurd h h0
    · exact h

theorem cmWCell_append (l1 l2 : List ((Label × Label) × ℚ)) (t c : Label) :
    cmWCell (l1 ++ l2) t c = cmWCell l1 t c + cmWCell l2 t c := by
  unfold cmWCell
  rw [List.filter_append, List.map_append, List.sum_append]

theorem filter_snd_sum_append (l1 l2 : List ((Label × Label) × ℚ))
    (p : (Label × Label) × ℚ → Bool) :
    (((l1 ++ l2).filter p).map (fun q => q.2)).sum =
      ((l1.filter p).map (fun q => q.2)).sum + ((l2.filter p).map (fun q => q.2)).sum := by
  rw [List.filter_append, List.map_append, List.sum_append]

theorem sum_ite_eq_of_nodup (labels : List Label) (a : Label) (w : ℚ)
    (hnd : labels.Nodup) (ha : a ∈ labels) :
    (labels.map (fun c => if a = c then w else 0)).sum = w := by
  induction labels with
  | nil => cases ha
  | cons b bs ih =>
    rcases List.mem_cons.1 ha with rfl | hmem
    · have h0 : (bs.map (fun c => if a = c then w else 0)).sum = 0 := by
        apply List.sum_eq_zero
        intro x hx
        rcases List.mem_map.1 hx with ⟨c, hc, rfl⟩
        rw [if_neg]
        intro h
        exact (List.nodup_cons.1 hnd).1 (h ▸ hc)
      simp only [List.map_cons, List.sum_cons]
      rw [if_true, h0, add_zero]
    · have hne : a ≠ b := by
        intro h
        exact (List.nodup_cons.1 hnd).1 (h ▸ hmem)
      simp only [List.map_cons, List.sum_cons, if_neg hne]
      rw [ih (List.nodup_cons.1 hnd).2 hmem, zero_add]


theorem cmCell_cons (q : Label × Label) (l : List (Label × Label)) (t c : Label) :
    cmCell (q :: l) t c = cmCell l t c + (if q.1 = t ∧ q.2 = c then 1 else 0) := by
  unfold cmCell
  rw [List.countP_cons]
  by_cases h : q.1 = t ∧ q.2 = c
  · have hb : (q.1 == t && q.2 == c) = true := by
      simp [h.1, h.2]
    rw [hb, if_pos h]
    push_cast
    simp only [if_true]
    try ring
  · have hb : (q.1 == t && q.2 == c) = false := by
      rcases not_and_or.1 h with h1 | h1 <;> simp [h1]
    rw [hb, if_neg h]
    push_cast
    simp

theorem cmWCell_cons (q : (Label × Label) × ℚ) (l : List ((Label × Label) × ℚ)) (t c : Label) :
    cmWCell (q :: l) t c = cmWCell l t c + (if q.1.1 = t ∧ q.1.2 = c then q.2 else 0) := by
  unfold cmWCell
  by_cases h : q.1.1 = t ∧ q.1.2 = c
  · have hb : (q.1.1 == t && q.1.2 == c) = true := by
      simp [h.1, h.2]
    rw [List.filter_cons, if_pos hb, if_pos h, List.map_cons, List.sum_cons]
    ring
  · have hb : (q.1.1 == t && q.1.2 == c) = false := by
      rcases not_and_or.1 h with h1 | h1 <;> simp [h1]
    rw [List.filter_cons, if_neg (by rw [hb]; exact Bool.false_ne_true), if_neg h, add_zero]

theorem cm_rowsum_eq_countP (pairs : List (Label × Label)) (labels : List Label) (k : Label)
    (hnd : labels.Nodup) (hmem : ∀ q ∈ pairs, q.1 = k → q.2 ∈ labels) :
    (labels.map (fun c => cmCell pairs k c)).sum =
      (pairs.countP (fun p => p.1 == k) : ℚ) := by
  induction pairs with
  | nil =>
    rw [List.countP_nil]
    push_cast
    apply List.sum_eq_zero
    intro x hx
    rcases List.mem_map.1 hx with ⟨c, _, rfl⟩
    rfl
  | cons q l ih =>
    have hsplit : (labels.map (fun c => cmCell (q :: l) k c)).sum =
        (labels.map (fun c => cmCell l k c)).sum +
          (labels.map (fun c => if q.1 = k ∧ q.2 = c then (1 : ℚ) else 0)).sum := by
      rw [← List.sum_map_add]
      apply congrArg
      apply List.map_congr_left
      intro c _
      rw [cmCell_cons]
    rw [hsplit, List.countP_cons, ih (fun p hp => hmem p (List.mem_cons_of_mem q hp))]
    by_cases hq : q.1 = k
    · have hone : (labels.map (fun c => if q.1 = k ∧ q.2 = c then (1 : ℚ) else 0)).sum = 1 := by
        have hcongr : labels.map (fun c => if q.1 = k ∧ q.2 = c then (1 : ℚ) else 0) =
            labels.map (fun c => if q.2 = c then (1 : ℚ) else 0) := by
          apply List.map_congr_left
          intro c _
          rw [if_congr (and_iff_right hq) rfl rfl]
        rw [hcongr]
        exact sum_ite_eq_of_nodup labels q.2 1 hnd (hmem q (List.mem_cons_self q l) hq)
      rw [hone, show (q.1 == k) = true from beq_iff_eq.2 hq, if_pos rfl]
      push_cast
      ring
    · have hzero : (labels.map (fun c => if q.1 = k ∧ q.2 = c then (1 : ℚ) else 0)).sum = 0 := by
        apply List.sum_eq_zero
        intro x hx
        rcases List.mem_map.1 hx with ⟨c, _, rfl⟩
        rw [if_neg (fun h => hq h.1)]
      rw [hzero, show (q.1 == k) = false from beq_eq_false_iff_ne.2 hq, if_neg (by simp)]
      push_cast
      ring

theorem cmw_rowsum_eq_filter_sum (triples : List ((Label × Label) × ℚ))
    (labels : List Label) (k : Label)
    (hnd : labels.Nodup) (hmem : ∀ q ∈ triples, q.1.1 = k → q.1.2 ∈ labels) :
    (labels.map (fun c => cmWCell triples k c)).sum =
      ((triples.filter (fun q => q.1.1 == k)).map (fun q => q.2)).sum := by
  induction triples with
  | nil =>
    rw [List.filter_nil, List.map_nil, List.sum_nil]
    apply List.sum_eq_zero
    intro x hx
    rcases List.mem_map.1 hx with ⟨c, _, rfl⟩
    rfl
  | cons q l ih =>
    have hsplit : (labels.map (fun c => cmWCell (q :: l) k c)).sum =
        (labels.map (fun c => cmWCell l k c)).sum +
          (labels.map (fun c => if q.1.1 = k ∧ q.1.2 = c then q.2 else 0)).sum := by
      rw [← List.sum_map_add]
      apply congrArg
      apply List.map_congr_left
      intro c _
      rw [cmWCell_cons]
    rw [hsplit, ih (fun p hp => hmem p (List.mem_cons_of_mem q hp))]
    by_cases hq : q.1.1 = k
    · have hone : (labels.map (fun c => if q.1.1 = k ∧ q.1.2 = c then q.2 else 0)).sum = q.2 := by
        have hcongr : labels.map (fun c => if q.1.1 = k ∧ q.1.2 = c then q.2 else 0) =
            labels.map (fun c => if q.1.2 = c then q.2 else 0) := by
          apply List.map_congr_left
          intro c _
          rw [if_congr (and_iff_right hq) rfl rfl]
        rw [hcongr]
        exact sum_ite_eq_of_nodup labels q.1.2 q.2 hnd (hmem q (List.mem_cons_self q l) hq)
      rw [hone, List.filter_cons, if_pos (beq_iff_eq.2 hq), List.map_cons, List.sum_cons]
      ring
    · have hzero : (labels.map (fun c => if q.1.1 = k ∧ q.1.2 = c then q.2 else 0)).sum = 0 := by
        apply List.sum_eq_zero
        intro x hx
        rcases List.mem_map.1 hx with ⟨c, _, rfl⟩
        rw [if_neg (fun h => hq h.1)]
      rw [hzero, add_zero, List.filter_cons,
        if_neg (by rw [beq_eq_false_iff_ne.2 hq]; exact Bool.false_ne_true)]

theorem diagonal_of_map_map (labels : List Label) (g : Label → Label → ℚ) :
    diagonal (labels.map (fun t => labels.map (g t))) = labels.map (fun k => g k k) := by
  apply List.ext_getElem
  · simp [diagonal]
  · intro i h1 h2
    simp only [diagonal, List.length_map] at h1 ⊢
    rw [List.getElem_map, List.getElem_range, List.getElem_map]
    have hi : i < labels.length := by
      simpa using h2
    have hrow : (labels.map (fun t => labels.map (g t))).getD i [] =
        labels.map (g labels[i]) := by
      rw [List.getD_eq_getElem?_getD, List.getElem?_map, List.getElem?_eq_getElem hi]
      rfl
    rw [hrow, List.getD_eq_getElem?_getD, List.getElem?_map, List.getElem?_eq_getElem hi]
    rfl

theorem rowSums_of_map_map (labels : List Label) (g : Label → Label → ℚ) :
    rowSums (labels.map (fun t => labels.map (g t))) =
      labels.map (fun k => (labels.map (g k)).sum) := by
  unfold rowSums
  rw [List.map_map]
  rfl

theorem dictGet_zip_map (labels : List Label) (f : Label → ℚ) (k : Label) (hk : k ∈ labels) :
    dictGet (labels.zip (labels.map f)) k = f k := by
  induction labels with
  | nil => cases hk
  | cons b bs ih =>
    rcases eq_or_ne k b with rfl | hne
    · simp [dictGet, List.lookup]
    · have hmem : k ∈ bs := by
        rcases List.mem_cons.1 hk with h | h
        · exact absurd h hne
        · exact h
      have := ih hmem
      simpa [dictGet, List.lookup, List.zip_cons_cons,
        show (k == b) = false from beq_eq_false_iff_ne.2 hne] using this


theorem getCMK_o2o_ok_inv (extracts : List Extract) (reds : List Reduction)
    (nullc : Label) (core : Core)
    (h : getConfusionMatrixK extracts reds "one-to-one".toList nullc = .ok core) :
    core.classes = sortU (extracts.flatMap intKeysOf ++ extracts.flatMap trueOf) ∧
    core.cs = cmSimple
      (getOneToOne (extracts.zip (replaceZeros
        (reds.map (fun r => 1 - npMean r.difficulty)) DIFFICULTY_FLOOR))).1
      (getOneToOne (extracts.zip (replaceZeros
        (reds.map (fun r => 1 - npMean r.difficulty)) DIFFICULTY_FLOOR))).2.1
      core.classes ∧
    core.cw = cmWeighted
      (getOneToOne (extracts.zip (replaceZeros
        (reds.map (fun r => 1 - npMean r.difficulty)) DIFFICULTY_FLOOR))).1
      (getOneToOne (extracts.zip (replaceZeros
        (reds.map (fun r => 1 - npMean r.difficulty)) DIFFICULTY_FLOOR))).2.1
      (getOneToOne (extracts.zip (replaceZeros
        (reds.map (fun r => 1 - npMean r.difficulty)) DIFFICULTY_FLOOR))).2.2
      core.classes := by
  cases extracts with
  | nil => exact absurd h (by simp [getConfusionMatrixK])
  | cons e0 es =>
    simp only [getConfusionMatrixK, difficultyMin_eq_floor, if_true] at h
    split at h
    · rw [Except.ok.injEq] at h
      rw [← h]
      exact ⟨rfl, rfl, rfl⟩
    · exact absurd h (by simp)

theorem C4_count_core (nullc k : Label) (hk : k ≠ nullc) :
    ∀ eds : List (Extract × ℚ),
      (∀ p ∈ eds, ∃ t c, trueOf p.1 = [t] ∧ chosenOf p.1 = [c] ∧ t ≠ nullc ∧ c ≠ nullc) →
      (∀ p ∈ eds, DIFFICULTY_FLOOR ≤ p.2) →
      ((getMultiClass eds nullc).1.zip (getMultiClass eds nullc).2.1).countP
          (fun p => p.1 == k) =
        ((getOneToOne eds).1.zip (getOneToOne eds).2.1).countP (fun p => p.1 == k) ∧
      ((getMultiClass eds nullc).1.zip (getMultiClass eds nullc).2.1).countP
          (fun p => p.1 == k && p.2 == k) =
        ((getOneToOne eds).1.zip (getOneToOne eds).2.1).countP
          (fun p => p.1 == k && p.2 == k) ∧
      (((((getMultiClass eds nullc).1.zip (getMultiClass eds nullc).2.1).zip
          (getMultiClass eds nullc).2.2).filter (fun q => q.1.1 == k)).map
            (fun q => q.2)).sum =
        (((((getOneToOne eds).1.zip (getOneToOne eds).2.1).zip
          (getOneToOne eds).2.2).filter (fun q => q.1.1 == k)).map (fun q => q.2)).sum ∧
      cmWCell ((((getMultiClass eds nullc).1.zip (getMultiClass eds nullc).2.1).zip
          (getMultiClass eds nullc).2.2)) k k =
        cmWCell ((((getOneToOne eds).1.zip (getOneToOne eds).2.1).zip
          (getOneToOne eds).2.2)) k k := by
  intro eds
  induction eds with
  | nil =>
    intro _ _
    exact ⟨rfl, rfl, rfl, rfl⟩
  | cons p rest ih =>
    intro hs hd
    obtain ⟨t, c, ht, hc, htn, hcn⟩ := hs p (List.mem_cons_self p rest)
    obtain ⟨h1, h2, h3, h4⟩ := ih (fun q hq => hs q (List.mem_cons_of_mem p hq))
      (fun q hq => hd q (List.mem_cons_of_mem p hq))
    have hdp := hd p (List.mem_cons_self p rest)
    simp only [getMultiClass, getOneToOne, List.flatMap_cons, List.map_cons] at h1 h2 h3 h4 ⊢
    by_cases heq : t = c
    · subst heq
      obtain ⟨hT, hC, hW⟩ := multi_singleton_same p.1 p.2 nullc t ht hc
      rw [hT, hC, hW]
      have hw2 : (if chosenOf p.1 = trueOf p.1 then max p.2 DIFFICULTY_FLOOR
          else max (1 - p.2) DIFFICULTY_FLOOR) = p.2 := by
        rw [if_pos (hc.trans ht.symm), max_eq_left hdp]
      rw [hw2, ht, hc]
      simp only [List.singleton_append, List.cons_append, List.nil_append,
        List.zip_cons_cons, List.countP_cons, List.filter_cons]
      refine ⟨by rw [h1], by rw [h2], ?_, ?_⟩
      · split
        · simp only [List.map_cons, List.sum_cons]
          rw [h3]
        · rw [h3]
      · rw [cmWCell_cons, cmWCell_cons, h4]
    · obtain ⟨hrows, hW⟩ := multi_singleton_ne p.1 p.2 nullc t c ht hc heq htn hcn
      have hw2 : (if chosenOf p.1 = trueOf p.1 then max p.2 DIFFICULTY_FLOOR
          else max (1 - p.2) DIFFICULTY_FLOOR) = max (1 - p.2) DIFFICULTY_FLOOR := by
        rw [if_neg]
        rw [ht, hc]
        intro hcontra
        injection hcontra with hinj _
        exact heq hinj.symm
      have hknull : (nullc == k) = false := beq_eq_false_iff_ne.2 (Ne.symm hk)
      rcases hrows with ⟨hT, hC⟩ | ⟨hT, hC⟩
      · rw [hT, hC, hW, hw2, ht, hc]
        simp only [List.cons_append, List.nil_append, List.zip_cons_cons,
          List.countP_cons, List.filter_cons, List.map_cons, List.sum_cons]
        by_cases htk : t = k
        · have htkb : (t == k) = true := beq_iff_eq.2 htk
          have hck : c ≠ k := fun h => heq (htk.trans h.symm)
          have hckb : (c == k) = false := beq_eq_false_iff_ne.2 hck
          refine ⟨?_, ?_, ?_, ?_⟩ <;>
            simp [cmWCell_cons, htkb, hckb, hknull, htk, hck, Ne.symm hk, h1, h2, h3, h4]
        · have htkb : (t == k) = false := beq_eq_false_iff_ne.2 htk
          refine ⟨?_, ?_, ?_, ?_⟩ <;>
            simp [cmWCell_cons, htkb, hknull, htk, Ne.symm hk, h1, h2, h3, h4]
      · rw [hT, hC, hW, hw2, ht, hc]
        simp only [List.cons_append, List.nil_append, List.zip_cons_cons,
          List.countP_cons, List.filter_cons, List.map_cons, List.sum_cons]
        by_cases htk : t = k
        · have htkb : (t == k) = true := beq_iff_eq.2 htk
          have hck : c ≠ k := fun h => heq (htk.trans h.symm)
          have hckb : (c == k) = false := beq_eq_false_iff_ne.2 hck
          refine ⟨?_, ?_, ?_, ?_⟩ <;>
            simp [cmWCell_cons, htkb, hckb, hknull, htk, hck, Ne.symm hk, h1, h2, h3, h4]
        · have htkb : (t == k) = false := beq_eq_false_iff_ne.2 htk
          refine ⟨?_, ?_, ?_, ?_⟩ <;>
            simp [cmWCell_cons, htkb, hknull, htk, Ne.symm hk, h1, h2, h3, h4]


theorem skillsOf_cmSimple (trues chosens labels : List Label)
    (hnd : labels.Nodup) (hmem : ∀ q ∈ trues.zip chosens, q.2 ∈ labels) :
    skillsOf (cmSimple trues chosens labels) =
      labels.map (fun k => cmCell (trues.zip chosens) k k /
        (((trues.zip chosens).countP (fun p => p.1 == k) : ℚ) + EPS)) := by
  unfold skillsOf
  rw [show cmSimple trues chosens labels =
    labels.map (fun t => labels.map (fun c => cmCell (trues.zip chosens) t c)) from rfl]
  simp only [diagonal_of_map_map, rowSums_of_map_map]
  rw [List.zip_map', List.map_map]
  apply List.map_congr_left
  intro k hkmem
  show cmCell (trues.zip chosens) k k /
      ((labels.map (fun c => cmCell (trues.zip chosens) k c)).sum + EPS) = _
  rw [cm_rowsum_eq_countP (trues.zip chosens) labels k hnd (fun q hq _ => hmem q hq)]

theorem rowSums_cmSimple (trues chosens labels : List Label)
    (hnd : labels.Nodup) (hmem : ∀ q ∈ trues.zip chosens, q.2 ∈ labels) :
    rowSums (cmSimple trues chosens labels) =
      labels.map (fun k => ((trues.zip chosens).countP (fun p => p.1 == k) : ℚ)) := by
  rw [show cmSimple trues chosens labels =
    labels.map (fun t => labels.map (fun c => cmCell (trues.zip chosens) t c)) from rfl]
  simp only [rowSums_of_map_map]
  apply List.map_congr_left
  intro k _
  exact cm_rowsum_eq_countP _ labels k hnd (fun q hq _ => hmem q hq)

theorem skillsOf_cmWeighted (trues chosens : List Label) (weights : List ℚ)
    (labels : List Label) (hnd : labels.Nodup)
    (hmem : ∀ q ∈ (trues.zip chosens).zip weights, q.1.2 ∈ labels) :
    skillsOf (cmWeighted trues chosens weights labels) =
      labels.map (fun k => cmWCell ((trues.zip chosens).zip weights) k k /
        (((((trues.zip chosens).zip weights).filter (fun q => q.1.1 == k)).map
          (fun q => q.2)).sum + EPS)) := by
  unfold skillsOf
  rw [show cmWeighted trues chosens weights labels =
    labels.map (fun t => labels.map
      (fun c => cmWCell ((trues.zip chosens).zip weights) t c)) from rfl]
  simp only [diagonal_of_map_map, rowSums_of_map_map]
  rw [List.zip_map', List.map_map]
  apply List.map_congr_left
  intro k hkmem
  show cmWCell ((trues.zip chosens).zip weights) k k /
      ((labels.map (fun c => cmWCell ((trues.zip chosens).zip weights) k c)).sum + EPS) = _
  rw [cmw_rowsum_eq_filter_sum ((trues.zip chosens).zip weights) labels k hnd
    (fun q hq _ => hmem q hq)]

theorem classes_ne_null (extracts : List Extract) (nullc : Label)
    (hnull : ∀ e ∈ extracts, ∀ x ∈ intKeysOf e ++ trueOf e, x ≠ nullc) :
    ∀ k ∈ sortU (extracts.flatMap intKeysOf ++ extracts.flatMap trueOf), k ≠ nullc := by
  intro k hkmem
  rcases List.mem_append.1 (mem_sortU.1 hkmem) with h | h
  · rcases List.mem_flatMap.1 h with ⟨e, he, hx⟩
    exact hnull e he k (List.mem_append_left _ hx)
  · rcases List.mem_flatMap.1 h with ⟨e, he, hx⟩
    exact hnull e he k (List.mem_append_right _ hx)


theorem C4evalA_o2o_core :
    getConfusionMatrixK [⟨[("b".toList, 1)], "s".toList, ["a".toList], []⟩] [⟨[1/2]⟩]
        "one-to-one".toList "NONE".toList =
      .ok ⟨["a".toList, "b".toList], [[0, 1], [0, 0]], [[0, 1/2], [0, 0]]⟩ := by
  have hsdiff : replaceZeros (([⟨[1/2]⟩] : List Reduction).map
      (fun r => 1 - npMean r.difficulty)) DIFFICULTY_FLOOR = [1/2] := by
    norm_num [replaceZeros, npMean, DIFFICULTY_FLOOR]
  rw [getConfusionMatrixK_o2o _ _ _ _ (by rw [hsdiff]; decide)]
  simp only [hsdiff,
    show sortU ([(⟨[("b".toList, 1)], "s".toList, ["a".toList], []⟩ : Extract)].flatMap
        intKeysOf ++
      [(⟨[("b".toList, 1)], "s".toList, ["a".toList], []⟩ : Extract)].flatMap trueOf) =
      ["a".toList, "b".toList] from by decide,
    show ([(⟨[("b".toList, 1)], "s".toList, ["a".toList], []⟩ : Extract)].zip
        ([1/2] : List ℚ)) =
      [(⟨[("b".toList, 1)], "s".toList, ["a".toList], []⟩, (1/2 : ℚ))] from rfl,
    show getOneToOne [((⟨[("b".toList, 1)], "s".toList, ["a".toList], []⟩ : Extract),
        (1/2 : ℚ))] = (["a".toList], ["b".toList], [1/2]) from by
      norm_num +decide [getOneToOne, trueOf, chosenOf, lowerL, DIFFICULTY_FLOOR, max_def]]
  rw [Except.ok.injEq, Core.mk.injEq]
  refine ⟨rfl, ?_, ?_⟩
  · rw [cmSimple_eq_of_count _ _ _ [[0, 1], [0, 0]] (by decide)]
    norm_num
  · norm_num +decide [cmWeighted, cmWCell]

theorem C4evalA_m2m_core :
    getConfusionMatrixK [⟨[("b".toList, 1)], "s".toList, ["a".toList], []⟩] [⟨[1/2]⟩]
        "many-to-many".toList "NONE".toList =
      .ok ⟨["a".toList, "b".toList, "NONE".toList],
        [[0, 0, 1], [0, 0, 0], [0, 1, 0]],
        [[0, 0, 1/2], [0, 0, 0], [0, 1/2, 0]]⟩ := by
  have hsdiff : replaceZeros (([⟨[1/2]⟩] : List Reduction).map
      (fun r => 1 - npMean r.difficulty)) DIFFICULTY_FLOOR = [1/2] := by
    norm_num [replaceZeros, npMean, DIFFICULTY_FLOOR]
  have hmw : multiWeights ⟨[("b".toList, 1)], "s".toList, ["a".toList], []⟩ (1/2)
      "NONE".toList = [1/2, 1/2] := by
    norm_num [multiWeights, DIFFICULTY_FLOOR, max_def,
      show multiTrueRow ⟨[("b".toList, 1)], "s".toList, ["a".toList], []⟩ "NONE".toList =
        ["a".toList, "NONE".toList] from by decide,
      show multiChosenRow ⟨[("b".toList, 1)], "s".toList, ["a".toList], []⟩ "NONE".toList =
        ["NONE".toList, "b".toList] from by decide,
      show localClasses ⟨[("b".toList, 1)], "s".toList, ["a".toList], []⟩ =
        ["a".toList, "b".toList] from by decide,
      List.range_succ]
    rfl
  rw [getConfusionMatrixK_m2m]
  simp only [hsdiff,
    show sortU ([(⟨[("b".toList, 1)], "s".toList, ["a".toList], []⟩ : Extract)].flatMap
        intKeysOf ++
      [(⟨[("b".toList, 1)], "s".toList, ["a".toList], []⟩ : Extract)].flatMap trueOf) =
      ["a".toList, "b".toList] from by decide,
    show ([(⟨[("b".toList, 1)], "s".toList, ["a".toList], []⟩ : Extract)].zip
        ([1/2] : List ℚ)) =
      [(⟨[("b".toList, 1)], "s".toList, ["a".toList], []⟩, (1/2 : ℚ))] from rfl,
    show getMultiClass [((⟨[("b".toList, 1)], "s".toList, ["a".toList], []⟩ : Extract),
        (1/2 : ℚ))] "NONE".toList =
      (["a".toList, "NONE".toList], ["NONE".toList, "b".toList], [1/2, 1/2]) from by
      simp only [getMultiClass, List.flatMap_cons, List.flatMap_nil, List.append_nil, hmw,
        show multiTrueRow ⟨[("b".toList, 1)], "s".toList, ["a".toList], []⟩ "NONE".toList =
          ["a".toList, "NONE".toList] from by decide,
        show multiChosenRow ⟨[("b".toList, 1)], "s".toList, ["a".toList], []⟩ "NONE".toList =
          ["NONE".toList, "b".toList] from by decide]]
  rw [Except.ok.injEq, Core.mk.injEq]
  refine ⟨by decide, ?_, ?_⟩
  · show cmSimple _ _ (["a".toList, "b".toList] ++ ["NONE".toList]) = _
    rw [cmSimple_eq_of_count _ _ _ [[0, 0, 1], [0, 0, 0], [0, 1, 0]] (by decide)]
    norm_num
  · show cmWeighted _ _ _ (["a".toList, "b".toList] ++ ["NONE".toList]) = _
    norm_num +decide [cmWeighted, cmWCell]

theorem C4evalB_o2o_core :
    getConfusionMatrixK [⟨[("a".toList, 1)], "s".toList, ["a".toList], []⟩] [⟨[99/100]⟩]
        "one-to-one".toList "NONE".toList =
      .ok ⟨["a".toList], [[1]], [[1/20]]⟩ := by
  have hsdiff : replaceZeros (([⟨[99/100]⟩] : List Reduction).map
      (fun r => 1 - npMean r.difficulty)) DIFFICULTY_FLOOR = [1/100] := by
    norm_num [replaceZeros, npMean, DIFFICULTY_FLOOR]
  rw [getConfusionMatrixK_o2o _ _ _ _ (by rw [hsdiff]; decide)]
  simp only [hsdiff,
    show sortU ([(⟨[("a".toList, 1)], "s".toList, ["a".toList], []⟩ : Extract)].flatMap
        intKeysOf ++
      [(⟨[("a".toList, 1)], "s".toList, ["a".toList], []⟩ : Extract)].flatMap trueOf) =
      ["a".toList] from by decide,
    show ([(⟨[("a".toList, 1)], "s".toList, ["a".toList], []⟩ : Extract)].zip
        ([1/100] : List ℚ)) =
      [(⟨[("a".toList, 1)], "s".toList, ["a".toList], []⟩, (1/100 : ℚ))] from rfl,
    show getOneToOne [((⟨[("a".toList, 1)], "s".toList, ["a".toList], []⟩ : Extract),
        (1/100 : ℚ))] = (["a".toList], ["a".toList], [1/20]) from by
      norm_num +decide [getOneToOne, trueOf, chosenOf, lowerL, DIFFICULTY_FLOOR, max_def]]
  rw [Except.ok.injEq, Core.mk.injEq]
  refine ⟨rfl, ?_, ?_⟩
  · rw [cmSimple_eq_of_count _ _ _ [[1]] (by decide)]
    norm_num
  · norm_num +decide [cmWeighted, cmWCell]

theorem C4evalB_m2m_core :
    getConfusionMatrixK [⟨[("a".toList, 1)], "s".toList, ["a".toList], []⟩] [⟨[99/100]⟩]
        "many-to-many".toList "NONE".toList =
      .ok ⟨["a".toList, "NONE".toList], [[1, 0], [0, 0]], [[1/100, 0], [0, 0]]⟩ := by
  have hsdiff : replaceZeros (([⟨[99/100]⟩] : List Reduction).map
      (fun r => 1 - npMean r.difficulty)) DIFFICULTY_FLOOR = [1/100] := by
    norm_num [replaceZeros, npMean, DIFFICULTY_FLOOR]
  have hmw : multiWeights ⟨[("a".toList, 1)], "s".toList, ["a".toList], []⟩ (1/100)
      "NONE".toList = [1/100] := by
    norm_num [multiWeights, DIFFICULTY_FLOOR, max_def,
      show multiTrueRow ⟨[("a".toList, 1)], "s".toList, ["a".toList], []⟩ "NONE".toList =
        ["a".toList] from by decide,
      show multiChosenRow ⟨[("a".toList, 1)], "s".toList, ["a".toList], []⟩ "NONE".toList =
        ["a".toList] from by decide,
      show localClasses ⟨[("a".toList, 1)], "s".toList, ["a".toList], []⟩ =
        ["a".toList] from by decide,
      List.range_succ]
    rfl
  rw [getConfusionMatrixK_m2m]
  simp only [hsdiff,
    show sortU ([(⟨[("a".toList, 1)], "s".toList, ["a".toList], []⟩ : Extract)].flatMap
        intKeysOf ++
      [(⟨[("a".toList, 1)], "s".toList, ["a".toList], []⟩ : Extract)].flatMap trueOf) =
      ["a".toList] from by decide,
    show ([(⟨[("a".toList, 1)], "s".toList, ["a".toList], []⟩ : Extract)].zip
        ([1/100] : List ℚ)) =
      [(⟨[("a".toList, 1)], "s".toList, ["a".toList], []⟩, (1/100 : ℚ))] from rfl,
    show getMultiClass [((⟨[("a".toList, 1)], "s".toList, ["a".toList], []⟩ : Extract),
        (1/100 : ℚ))] "NONE".toList =
      (["a".toList], ["a".toList], [1/100]) from by
      simp only [getMultiClass, List.flatMap_cons, List.flatMap_nil, List.append_nil, hmw,
        show multiTrueRow ⟨[("a".toList, 1)], "s".toList, ["a".toList], []⟩ "NONE".toList =
          ["a".toList] from by decide,
        show multiChosenRow ⟨[("a".toList, 1)], "s".toList, ["a".toList], []⟩ "NONE".toList =
          ["a".toList] from by decide]]
  rw [Except.ok.injEq, Core.mk.injEq]
  refine ⟨by decide, ?_, ?_⟩
  · show cmSimple _ _ (["a".toList] ++ ["NONE".toList]) = _
    rw [cmSimple_eq_of_count _ _ _ [[1, 0], [0, 0]] (by decide)]
    norm_num
  · show cmWeighted _ _ _ (["a".toList] ++ ["NONE".toList]) = _
    norm_num +decide [cmWeighted, cmWCell]

theorem C4evalA_o2o :
    userSkillReducer [⟨[("b".toList, 1)], "s".toList, ["a".toList], []⟩] [⟨[1/2]⟩]
        "one-to-one".toList "NONE".toList (7/10) 1 "mean".toList =
      finishOutput ⟨["a".toList, "b".toList], [[0, 1], [0, 0]], [[0, 1/2], [0, 0]]⟩
        "one-to-one".toList "NONE".toList (7/10) 1 "mean".toList :=
  userSkillReducer_eval _ _ _ _ _ _ _ _
    (corePipeline_kclass _ _ _ _ (by decide) _ C4evalA_o2o_core)

theorem C4evalA_m2m :
    userSkillReducer [⟨[("b".toList, 1)], "s".toList, ["a".toList], []⟩] [⟨[1/2]⟩]
        "many-to-many".toList "NONE".toList (7/10) 1 "mean".toList =
      finishOutput ⟨["a".toList, "b".toList, "NONE".toList],
          [[0, 0, 1], [0, 0, 0], [0, 1, 0]], [[0, 0, 1/2], [0, 0, 0], [0, 1/2, 0]]⟩
        "many-to-many".toList "NONE".toList (7/10) 1 "mean".toList :=
  userSkillReducer_eval _ _ _ _ _ _ _ _
    (corePipeline_kclass _ _ _ _ (by decide) _ C4evalA_m2m_core)

theorem C4evalB_o2o :
    userSkillReducer [⟨[("a".toList, 1)], "s".toList, ["a".toList], []⟩] [⟨[99/100]⟩]
        "one-to-one".toList "NONE".toList (7/10) 1 "mean".toList =
      finishOutput ⟨["a".toList], [[1]], [[1/20]]⟩
        "one-to-one".toList "NONE".toList (7/10) 1 "mean".toList :=
  userSkillReducer_eval _ _ _ _ _ _ _ _
    (corePipeline_kclass _ _ _ _ (by decide) _ C4evalB_o2o_core)

theorem C4evalB_m2m :
    userSkillReducer [⟨[("a".toList, 1)], "s".toList, ["a".toList], []⟩] [⟨[99/100]⟩]
        "many-to-many".toList "NONE".toList (7/10) 1 "mean".toList =
      finishOutput ⟨["a".toList, "NONE".toList], [[1, 0], [0, 0]], [[1/100, 0], [0, 0]]⟩
        "many-to-many".toList "NONE".toList (7/10) 1 "mean".toList :=
  userSkillReducer_eval _ _ _ _ _ _ _ _
    (corePipeline_kclass _ _ _ _ (by decide) _ C4evalB_m2m_core)

end UserSkill



namespace UserSkill

/-! ### Claim theorems -/

/-- C1: the spec says the replacement value substituted for zero inverted
difficulties is `max(min of the strictly positive inverted values, 0.05)`;
the code instead computes `np.max([np.min(w[w > 0], initial=0),
DIFFICULTY_FLOOR])`, and since `initial=0` participates in the minimum the
substituted value is the constant 0.05 for every input batch.  At inverted
difficulties [0, 9/10] the spec floor is 9/10 but the code substitutes
1/20 = 0.05 for the zero weight. -/
theorem C1_floor_replacement_constant :
    (∀ ws : List ℚ, difficultyMin ws = 1/20) ∧
    specFloor [0, 9/10] = 9/10 ∧
    replaceZeros [0, 9/10] (difficultyMin [0, 9/10]) = [1/20, 9/10] := by
  refine ⟨fun ws => difficultyMin_eq_floor ws, ?_, ?_⟩
  · norm_num [specFloor, DIFFICULTY_FLOOR, List.filter, max_def]
  · rw [difficultyMin_eq_floor]
    norm_num [replaceZeros, DIFFICULTY_FLOOR]

/-- C2: in many-to-many mode each judgment emits, for every class of the
sorted union of its true and chosen labels, exactly one (true-slot,
chosen-slot) pair whose slots are the class when it appears on that side
and the null-class token otherwise, weighted by the difficulty weight when
the slots are equal and by the floor-clamped complementary weight
otherwise.  In particular a judgment with true labels [cat, dog], chosen
labels [cat] and difficulty weight 1/2 emits exactly (cat, cat) at the
difficulty weight 1/2 and (dog, NONE) at the complementary weight, and the
reducer reports count[dog] = 1. -/
theorem C2_many_to_many_emission :
    (∀ (eds : List (Extract × ℚ)) (nullc : Label),
      getMultiClass eds nullc =
        (eds.flatMap (fun p => (localClasses p.1).map
            (fun c => if c ∈ trueOf p.1 then c else nullc)),
         eds.flatMap (fun p => (localClasses p.1).map
            (fun c => if c ∈ chosenOf p.1 then c else nullc)),
         eds.flatMap (fun p => (localClasses p.1).map (fun c =>
            if (if c ∈ trueOf p.1 then c else nullc) = (if c ∈ chosenOf p.1 then c else nullc)
            then p.2 else max (1 - p.2) DIFFICULTY_FLOOR)))) ∧
    getMultiClass [(⟨[("Cat".toList, 1)], "s".toList, ["cat".toList, "dog".toList], []⟩, 1/2)]
        "NONE".toList =
      (["cat".toList, "dog".toList], ["cat".toList, "NONE".toList], [1/2, 1/2]) ∧
    (userSkillReducer [⟨[("Cat".toList, 1)], "s".toList, ["cat".toList, "dog".toList], []⟩]
        [⟨[1/2]⟩] "many-to-many".toList "NONE".toList (7/10) 10 "mean".toList).toOption.map
      (fun o => dictGet o.count "dog".toList) = some 1 := by
  refine ⟨?_, ?_, ?_⟩
  · intro eds nullc
    simp only [getMultiClass, multiTrueRow_eq_map, multiChosenRow_eq_map, multiWeights_eq_map]
  · refine Prod.ext ?_ (Prod.ext ?_ ?_)
    · simp only [getMultiClass]
      decide
    · simp only [getMultiClass]
      decide
    · show multiWeights _ (1/2) _ ++ [] = _
      rw [List.append_nil]
      norm_num [multiWeights, DIFFICULTY_FLOOR, max_def,
        show multiTrueRow ⟨[("Cat".toList, 1)], "s".toList, ["cat".toList, "dog".toList], []⟩
          "NONE".toList = ["cat".toList, "dog".toList] from by decide,
        show multiChosenRow ⟨[("Cat".toList, 1)], "s".toList, ["cat".toList, "dog".toList], []⟩
          "NONE".toList = ["cat".toList, "NONE".toList] from by decide,
        List.range_succ]
      rfl
  · have hmc : getMultiClass [(⟨[("Cat".toList, 1)], "s".toList,
        ["cat".toList, "dog".toList], []⟩, 1/2)] "NONE".toList =
        (["cat".toList, "dog".toList], ["cat".toList, "NONE".toList], [1/2, 1/2]) := by
      refine Prod.ext (by decide) (Prod.ext (by decide) ?_)
      show multiWeights _ (1/2) _ ++ [] = _
      rw [List.append_nil]
      norm_num [multiWeights, DIFFICULTY_FLOOR, max_def,
        show multiTrueRow ⟨[("Cat".toList, 1)], "s".toList, ["cat".toList, "dog".toList], []⟩
          "NONE".toList = ["cat".toList, "dog".toList] from by decide,
        show multiChosenRow ⟨[("Cat".toList, 1)], "s".toList, ["cat".toList, "dog".toList], []⟩
          "NONE".toList = ["cat".toList, "NONE".toList] from by decide,
        List.range_succ]
      rfl
    have hsdiff : replaceZeros (([⟨[1/2]⟩] : List Reduction).map
        (fun r => 1 - npMean r.difficulty)) DIFFICULTY_FLOOR = [1/2] := by
      norm_num [replaceZeros, npMean, DIFFICULTY_FLOOR]
    have hcs : cmSimple ["cat".toList, "dog".toList] ["cat".toList, "NONE".toList]
        ["cat".toList, "dog".toList, "NONE".toList] =
        [[1, 0, 0], [0, 0, 1], [0, 0, 0]] := by
      rw [cmSimple_eq_of_count _ _ _ [[1, 0, 0], [0, 0, 1], [0, 0, 0]] (by decide)]
      norm_num
    have hk2 : getConfusionMatrixK
        [⟨[("Cat".toList, 1)], "s".toList, ["cat".toList, "dog".toList], []⟩] [⟨[1/2]⟩]
        "many-to-many".toList "NONE".toList =
        .ok ⟨["cat".toList, "dog".toList, "NONE".toList], [[1, 0, 0], [0, 0, 1], [0, 0, 0]],
          cmWeighted ["cat".toList, "dog".toList] ["cat".toList, "NONE".toList] [1/2, 1/2]
            ["cat".toList, "dog".toList, "NONE".toList]⟩ := by
      rw [getConfusionMatrixK_m2m]
      simp only [hsdiff,
        show ([(⟨[("Cat".toList, 1)], "s".toList, ["cat".toList, "dog".toList],
          []⟩ : Extract)].zip ([1/2] : List ℚ)) =
          [(⟨[("Cat".toList, 1)], "s".toList, ["cat".toList, "dog".toList], []⟩, (1/2 : ℚ))]
          from rfl, hmc,
        show sortU ([⟨[("Cat".toList, 1)], "s".toList, ["cat".toList, "dog".toList],
          []⟩].flatMap intKeysOf ++ [(⟨[("Cat".toList, 1)], "s".toList,
          ["cat".toList, "dog".toList], []⟩ : Extract)].flatMap trueOf) =
          ["cat".toList, "dog".toList] from by decide]
      rw [Except.ok.injEq, Core.mk.injEq]
      exact ⟨rfl, hcs, rfl⟩
    have hcore := corePipeline_kclass _ _ _ _ (show "many-to-many".toList ≠ "binary".toList
        from by decide) _ hk2
    rw [userSkillReducer_eval _ _ _ _ _ _ _ _ hcore]
    obtain ⟨out, hok, hcount⟩ := finishOutput_mean_isOk
      ⟨["cat".toList, "dog".toList, "NONE".toList], [[1, 0, 0], [0, 0, 1], [0, 0, 0]],
        cmWeighted ["cat".toList, "dog".toList] ["cat".toList, "NONE".toList] [1/2, 1/2]
          ["cat".toList, "dog".toList, "NONE".toList]⟩
      "many-to-many".toList "NONE".toList (7/10) 10
    rw [hok]
    have hrs : rowSums [[(1:ℚ), 0, 0], [0, 0, 1], [0, 0, 0]] = [1, 1, 0] := by
      norm_num [rowSums]
    show some (dictGet out.count "dog".toList) = some 1
    rw [hcount]
    show some (dictGet (List.zip _ (rowSums _)) "dog".toList) = some 1
    rw [hrs]
    simp [dictGet, List.lookup,
      show (("cat".toList : Label) == "dog".toList) = false from by decide,
      show (("dog".toList : Label) == "dog".toList) = true from by decide]


/-- C3 counterexample: with a single failed judgment (success = [0],
difficulty [0.2]) the simple confusion matrix returned by the binary path
is [[0, 1], [0, 0]]: the failure count sits at entry [0][1], so the second
column is [1, 0], not zero, contradicting the claim that only the first
column is populated with failures at entry [1][0]. -/
theorem C3_second_column_nonzero :
    (getUserSkillBinary [⟨[], "s".toList, [], [0]⟩] [⟨[2/10]⟩]).1 = [[0, 1], [0, 0]] ∧
    (getUserSkillBinary [⟨[], "s".toList, [], [0]⟩] [⟨[2/10]⟩]).1.map (fun r => r.getD 1 0) ≠
      [0, 0] := by
  have h : (getUserSkillBinary [⟨[], "s".toList, [], [0]⟩] [⟨[2/10]⟩]).1 = [[0, 1], [0, 0]] := by
    norm_num [getUserSkillBinary, difficultyMin, npMinInitial0, DIFFICULTY_FLOOR,
      replaceZeros, List.filter, max_def, min_def,
      show ((0:Int) == 0) = true from rfl, show ((0:Int) == 1) = false from rfl]
  refine ⟨h, ?_⟩
  rw [h]
  norm_num

/-- C3 amended: in binary mode both returned matrices are 2 by 2 with only
the first ROW populated (successes at entry [0][0], failures at entry
[0][1]) and the entire second row zero; the single-success scenario
(success [1], difficulty [0.2], thresholds 0.7 and 10, strategy mean)
yields confusion_simple [[1, 0], [0, 0]], count[True] = 1,
weighted_skill[True] = 0.8 / (0.8 + 1e-16) (within 1e-15 of, but not
exactly, 1.0) and level_up = False. -/
theorem C3_binary_layout_and_scenario :
    (∀ (e : List Extract) (r : List Reduction),
      (getUserSkillBinary e r).1 =
        [[(((e.zip r).flatMap (fun p => p.1.success)).countP (fun s => s == 1) : ℚ),
          (((e.zip r).flatMap (fun p => p.1.success)).countP (fun s => s == 0) : ℚ)],
         [0, 0]] ∧
      ∃ a b, (getUserSkillBinary e r).2 = [[a, b], [0, 0]]) ∧
    (∃ out, userSkillReducer [⟨[], "s".toList, [], [1]⟩] [⟨[2/10]⟩] "binary".toList
        "NONE".toList (7/10) 10 "mean".toList = .ok out ∧
      out.classes = ["True".toList, "False".toList] ∧
      out.confusionSimple = [[1, 0], [0, 0]] ∧
      dictGet out.count "True".toList = 1 ∧
      dictGet out.weightedSkill "True".toList = (8/10) / (8/10 + EPS) ∧
      dictGet out.weightedSkill "True".toList ≠ 1 ∧
      out.levelUp = false) := by
  constructor
  · intro e r
    exact ⟨rfl, _, _, rfl⟩
  · have hbin : getUserSkillBinary [⟨[], "s".toList, [], [1]⟩] [⟨[2/10]⟩] =
        ([[1, 0], [0, 0]], [[8/10, 0], [0, 0]]) := by
      norm_num [getUserSkillBinary, difficultyMin, npMinInitial0, DIFFICULTY_FLOOR,
        replaceZeros, List.filter, max_def, min_def,
        show ((1:Int) == 0) = false from rfl, show ((1:Int) == 1) = true from rfl]
    have hcore : (corePipeline [⟨[], "s".toList, [], [1]⟩] [⟨[2/10]⟩] "binary".toList
        "NONE".toList).2 = .ok ⟨["True".toList, "False".toList], [[1, 0], [0, 0]],
          [[8/10, 0], [0, 0]]⟩ := by
      rw [corePipeline_binary]
      show Except.ok _ = _
      rw [hbin]
    rw [userSkillReducer_eval _ _ _ _ _ _ _ _ hcore, finishOutput_mean]
    have hwsd : wsdOf ⟨["True".toList, "False".toList], [[1, 0], [0, 0]],
        [[8/10, 0], [0, 0]]⟩ =
        [("True".toList, (8/10) / (8/10 + EPS)), ("False".toList, 0)] := by
      unfold wsdOf
      show List.zip _ (skillsOf _) = _
      rw [skillsOf_pair]
      norm_num
    have hcd : cdOf ⟨["True".toList, "False".toList], [[1, 0], [0, 0]],
        [[8/10, 0], [0, 0]]⟩ = [("True".toList, 1), ("False".toList, 0)] := by
      unfold cdOf
      show List.zip _ (rowSums _) = _
      norm_num [rowSums]
    refine ⟨_, rfl, rfl, rfl, ?_, ?_, ?_, ?_⟩
    · show dictGet (cdOf _) _ = 1
      rw [hcd]
      simp [dictGet, List.lookup, show (("True".toList : Label) == "True".toList) = true
        from by decide]
    · show dictGet (wsdOf _) _ = _
      rw [hwsd]
      simp [dictGet, List.lookup, show (("True".toList : Label) == "True".toList) = true
        from by decide]
    · show dictGet (wsdOf _) _ ≠ 1
      rw [hwsd]
      simp only [dictGet, List.lookup, show (("True".toList : Label) == "True".toList) = true
        from by decide]
      norm_num [EPS]
    · show (_ && countsOk _ _ _) = false
      have hco : countsOk ⟨["True".toList, "False".toList], [[1, 0], [0, 0]],
          [[8/10, 0], [0, 0]]⟩ (exclClass "binary".toList "NONE".toList) 10 = false := by
        unfold countsOk nullRemovedCountsOf
        rw [hcd]
        simp [exclClass, List.filter,
          show (decide (("True".toList : Label) ≠ "False".toList)) = true from by decide,
          show (decide (("False".toList : Label) ≠ "False".toList)) = false from by decide,
          show (decide ((10:ℚ) ≤ 1)) = false from by norm_num]
      rw [hco, Bool.and_false]


/-- C9: the reducer is a pure function of its arguments: in any sequence
of invocations the i-th result is the reducer applied to the i-th call
alone, so equal calls give equal results regardless of any previous
invocations. -/
theorem C9_deterministic_stateless (calls : List ReducerCall) (i : ℕ) (c : ReducerCall)
    (h : calls[i]? = some c) :
    (runInvocations calls)[i]? = some (runCall c) := by
  unfold runInvocations
  rw [List.getElem?_map, h]
  rfl

/-- C9 witness: in a two-call sequence the second result equals the
reducer applied to the second call alone. -/
theorem C9_witness :
    (runInvocations [⟨[⟨[], "s".toList, [], [1]⟩], [⟨[2/10]⟩], "binary".toList,
        "NONE".toList, 7/10, 10, "mean".toList⟩,
      ⟨[], [], "binary".toList, "NONE".toList, 7/10, 10, "mean".toList⟩])[1]? =
      some (runCall ⟨[], [], "binary".toList, "NONE".toList, 7/10, 10, "mean".toList⟩) :=
  C9_deterministic_stateless _ 1 _ rfl

/-- C6 counterexample: with a valid binary batch and the unknown strategy
value bogus, the reducer fails only after the confusion matrices and the
skills are computed (the stage trace is [confusion_matrices, skills]), so
the failure is not a rejection before computation. -/
theorem C6_counterexample_strategy_after_computation :
    userSkillReducerT [⟨[], "s".toList, [], [1]⟩] [⟨[2/10]⟩] "binary".toList "NONE".toList
      (7/10) 10 "bogus".toList =
      (["confusion_matrices", "skills"], .error "UnboundLocalError") := by
  unfold userSkillReducerT
  rw [corePipeline_binary]
  show (_, finishOutput _ _ _ _ _ _) = _
  unfold finishOutput
  rw [if_neg (by decide), if_neg (by decide)]
  rfl

/-- C6 amended: an unrecognized strategy or mode does make the call fail
(with an unbound-local error, not an upfront configuration check), but not
before computation: for an unknown strategy (shown on the binary path) the
confusion matrices and skills are computed before the failure surfaces,
and for an unknown mode on a nonempty batch the class vocabulary and
difficulty weights are computed first (only the matrices are not built). -/
theorem C6_failure_after_computation :
    (∀ (e : List Extract) (r : List Reduction) (nullc : Label) (thr cnt : ℚ) (s : Label),
      s ≠ "mean".toList → s ≠ "all".toList →
      (userSkillReducerT e r "binary".toList nullc thr cnt s).2 = .error "UnboundLocalError" ∧
      "skills" ∈ (userSkillReducerT e r "binary".toList nullc thr cnt s).1 ∧
      "confusion_matrices" ∈ (userSkillReducerT e r "binary".toList nullc thr cnt s).1) ∧
    (∀ (e0 : Extract) (es : List Extract) (r : List Reduction) (m nullc : Label)
        (thr cnt : ℚ) (s : Label),
      m ≠ "binary".toList → m ≠ "one-to-one".toList → m ≠ "many-to-many".toList →
      (userSkillReducerT (e0 :: es) r m nullc thr cnt s).2 = .error "UnboundLocalError" ∧
      (userSkillReducerT (e0 :: es) r m nullc thr cnt s).1 = ["classes_and_weights"]) := by
  constructor
  · intro e r nullc thr cnt s h1 h2
    unfold userSkillReducerT
    rw [corePipeline_binary]
    have hfin : finishOutput ⟨["True".toList, "False".toList],
        (getUserSkillBinary e r).1, (getUserSkillBinary e r).2⟩ "binary".toList nullc
        thr cnt s = .error "UnboundLocalError" := by
      unfold finishOutput
      rw [if_neg h1, if_neg h2]
    refine ⟨?_, ?_, ?_⟩
    · show finishOutput _ _ _ _ _ _ = _
      exact hfin
    · show "skills" ∈ ["confusion_matrices"] ++ ["skills"]
      simp
    · show "confusion_matrices" ∈ ["confusion_matrices"] ++ ["skills"]
      simp
  · intro e0 es r m nullc thr cnt s h1 h2 h3
    have hk : getConfusionMatrixK (e0 :: es) r m nullc = .error "UnboundLocalError" := by
      unfold getConfusionMatrixK
      rw [if_neg h2, if_neg h3]
    unfold userSkillReducerT corePipeline
    rw [if_neg h1, hk]
    exact ⟨rfl, by rw [if_neg (List.cons_ne_nil e0 es)]⟩

/-- C6 witness: the amended statement at concrete inputs: strategy bogus
on a binary batch, and mode bogus on a nonempty batch. -/
theorem C6_witness :
    ((userSkillReducerT [⟨[], "s".toList, [], [1]⟩] [⟨[2/10]⟩] "binary".toList
        "NONE".toList (7/10) 10 "bogus".toList).2 = .error "UnboundLocalError" ∧
      "skills" ∈ (userSkillReducerT [⟨[], "s".toList, [], [1]⟩] [⟨[2/10]⟩] "binary".toList
        "NONE".toList (7/10) 10 "bogus".toList).1 ∧
      "confusion_matrices" ∈ (userSkillReducerT [⟨[], "s".toList, [], [1]⟩] [⟨[2/10]⟩]
        "binary".toList "NONE".toList (7/10) 10 "bogus".toList).1) ∧
    ((userSkillReducerT [⟨[], "s".toList, [], [1]⟩] [⟨[2/10]⟩] "bogus".toList
        "NONE".toList (7/10) 10 "mean".toList).2 = .error "UnboundLocalError" ∧
      (userSkillReducerT [⟨[], "s".toList, [], [1]⟩] [⟨[2/10]⟩] "bogus".toList
        "NONE".toList (7/10) 10 "mean".toList).1 = ["classes_and_weights"]) :=
  ⟨C6_failure_after_computation.1 _ _ _ _ _ _ (by decide) (by decide),
   C6_failure_after_computation.2 _ _ _ _ _ _ _ _ (by decide) (by decide) (by decide)⟩

/-- C8 counterexample: in binary mode the difficulty record [0.2, 0.6]
aligned with successes [1, 0] is consumed elementwise, giving the weighted
matrix [[0.8, 0.6], [0, 0]]; consuming the record as its mean 0.4 (the
spec-modelled variant) would give [[0.6, 0.4], [0, 0]] instead. -/
theorem C8_binary_not_mean_consumed :
    (getUserSkillBinary [⟨[], "s".toList, [], [1, 0]⟩] [⟨[2/10, 6/10]⟩]).2 =
      [[8/10, 6/10], [0, 0]] ∧
    (getUserSkillBinaryMeanSpec [⟨[], "s".toList, [], [1, 0]⟩] [⟨[2/10, 6/10]⟩]).2 =
      [[6/10, 4/10], [0, 0]] ∧
    ([[8/10, 6/10], [0, 0]] : List (List ℚ)) ≠ [[6/10, 4/10], [0, 0]] := by
  refine ⟨?_, ?_, by norm_num⟩
  · norm_num [getUserSkillBinary, difficultyMin, npMinInitial0, DIFFICULTY_FLOOR,
      replaceZeros, List.filter, max_def, min_def,
      show ((1:Int) == 0) = false from rfl, show ((1:Int) == 1) = true from rfl,
      show ((0:Int) == 0) = true from rfl, show ((0:Int) == 1) = false from rfl]
  · norm_num [getUserSkillBinaryMeanSpec, difficultyMin, npMinInitial0, DIFFICULTY_FLOOR,
      npMean, replaceZeros, List.filter, max_def, min_def,
      show ((1:Int) == 0) = false from rfl, show ((1:Int) == 1) = true from rfl,
      show ((0:Int) == 0) = true from rfl, show ((0:Int) == 1) = false from rfl]

/-- C8 amended: in the one-to-one and many-to-many modes each difficulty
record is consumed only through the mean of its difficulty sequence (two
record batches with equal per-record means give identical results), while
in binary mode the sequence is consumed elementwise, aligned with the
success entries (shown concretely by the counterexample input). -/
theorem C8_mean_consumption :
    (∀ (extracts : List Extract) (reds reds2 : List Reduction) (mode nullc : Label),
      reds.map (fun r => npMean r.difficulty) = reds2.map (fun r => npMean r.difficulty) →
      getConfusionMatrixK extracts reds mode nullc =
        getConfusionMatrixK extracts reds2 mode nullc) ∧
    (getUserSkillBinary [⟨[], "s".toList, [], [1, 0]⟩] [⟨[2/10, 6/10]⟩]).2 =
      [[8/10, 6/10], [0, 0]] := by
  constructor
  · intro e reds reds2 mode nullc h
    have h2 : reds.map (fun r => 1 - npMean r.difficulty) =
        reds2.map (fun r => 1 - npMean r.difficulty) := by
      have h3 := congrArg (List.map (fun x => (1:ℚ) - x)) h
      simpa [List.map_map, Function.comp] using h3
    unfold getConfusionMatrixK
    cases e with
    | nil => rfl
    | cons e0 es => rw [h2]
  · norm_num [getUserSkillBinary, difficultyMin, npMinInitial0, DIFFICULTY_FLOOR,
      replaceZeros, List.filter, max_def, min_def,
      show ((1:Int) == 0) = false from rfl, show ((1:Int) == 1) = true from rfl,
      show ((0:Int) == 0) = true from rfl, show ((0:Int) == 1) = false from rfl]

/-- C8 witness: two difficulty records with the same mean 0.4 give the
same one-to-one and many-to-many results. -/
theorem C8_witness :
    getConfusionMatrixK [⟨[], "s".toList, ["cat".toList], []⟩] [⟨[2/10, 6/10]⟩]
      "many-to-many".toList "NONE".toList =
    getConfusionMatrixK [⟨[], "s".toList, ["cat".toList], []⟩] [⟨[4/10]⟩]
      "many-to-many".toList "NONE".toList :=
  C8_mean_consumption.1 _ _ _ _ _ (by norm_num [npMean])


/-- C7 counterexample: an empty judgment batch raises IndexError in the
one-to-one and many-to-many modes (the code reads
`extracts[0]['feedback']['strategy']` before anything else), so the
epsilon guard does not make every mode safe on an empty batch. -/
theorem C7_empty_batch_kclass_raises :
    userSkillReducer [] [] "one-to-one".toList "NONE".toList (7/10) 10 "mean".toList =
      .error "IndexError" ∧
    userSkillReducer [] [] "many-to-many".toList "NONE".toList (7/10) 10 "mean".toList =
      .error "IndexError" := by
  constructor
  · unfold userSkillReducer userSkillReducerT corePipeline getConfusionMatrixK
    rw [if_neg (by decide)]
  · unfold userSkillReducer userSkillReducerT corePipeline getConfusionMatrixK
    rw [if_neg (by decide)]

/-- C7 amended: in binary mode an empty batch does not raise: the epsilon
guard yields the all-zero result (every skill 0, mean skill 0); in the
k-class modes an empty batch raises IndexError (counterexample theorem);
and in many-to-many mode a class of the vocabulary other than the null
class that is never observed as a true label has skill 0 and weighted
skill 0 rather than causing a division by zero. -/
theorem C7_epsilon_guard :
    (∀ (nullc : Label) (thr cnt : ℚ),
      userSkillReducer [] [] "binary".toList nullc thr cnt "mean".toList =
        .ok ⟨["True".toList, "False".toList], [[0, 0], [0, 0]],
          [("True".toList, 0), ("False".toList, 0)],
          [("True".toList, 0), ("False".toList, 0)],
          [("True".toList, 0), ("False".toList, 0)], 0,
          decide (thr ≤ 0) && decide (cnt ≤ 0)⟩) ∧
    (∀ (extracts : List Extract) (reds : List Reduction) (nullc : Label) (thr cnt : ℚ)
        (strategy : Label) (out : SkillOutput) (c : Label),
      userSkillReducer extracts reds "many-to-many".toList nullc thr cnt strategy = .ok out →
      c ∈ out.classes → c ≠ nullc → (∀ e ∈ extracts, c ∉ trueOf e) →
      dictGet out.skill c = 0 ∧ dictGet out.weightedSkill c = 0) := by
  constructor
  · intro nullc thr cnt
    have hbin : getUserSkillBinary [] [] = ([[0, 0], [0, 0]], [[0, 0], [0, 0]]) := by
      norm_num [getUserSkillBinary, replaceZeros]
    have hcore : (corePipeline [] [] "binary".toList nullc).2 =
        .ok ⟨["True".toList, "False".toList], [[0, 0], [0, 0]], [[0, 0], [0, 0]]⟩ := by
      rw [corePipeline_binary]
      show Except.ok _ = _
      rw [hbin]
    rw [userSkillReducer_eval _ _ _ _ _ _ _ _ hcore, finishOutput_mean]
    have hsk : skillsOf ([[0, 0], [0, 0]] : List (List ℚ)) = [0, 0] := by
      rw [skillsOf_pair]
      norm_num
    have hwsd : wsdOf ⟨["True".toList, "False".toList], [[0, 0], [0, 0]],
        [[0, 0], [0, 0]]⟩ = [("True".toList, 0), ("False".toList, 0)] := by
      unfold wsdOf
      show List.zip _ (skillsOf _) = _
      rw [hsk]
      rfl
    have hcd : cdOf ⟨["True".toList, "False".toList], [[0, 0], [0, 0]],
        [[0, 0], [0, 0]]⟩ = [("True".toList, 0), ("False".toList, 0)] := by
      unfold cdOf
      show List.zip _ (rowSums _) = _
      norm_num [rowSums]
    have hall : ∀ k : Label, dictGet [("True".toList, (0:ℚ)), ("False".toList, 0)] k = 0 := by
      intro k
      unfold dictGet
      cases hk : (k == ("True".toList : Label)) <;>
        cases hk2 : (k == ("False".toList : Label)) <;>
          simp only [List.lookup, hk, hk2] <;> rfl
    have hmean : meanSkillOf ⟨["True".toList, "False".toList], [[0, 0], [0, 0]],
        [[0, 0], [0, 0]]⟩ (exclClass "binary".toList nullc) = 0 := by
      unfold meanSkillOf nullRemovedClassesOf
      rw [hwsd]
      refine div_eq_zero_iff.2 (Or.inl (List.sum_eq_zero ?_))
      intro x hx
      rcases List.mem_map.1 hx with ⟨k, _, hk⟩
      rw [← hk]
      exact hall k
    have hexcl : exclClass "binary".toList nullc = "False".toList := by
      unfold exclClass
      rw [if_pos rfl]
    have hco : countsOk ⟨["True".toList, "False".toList], [[0, 0], [0, 0]],
        [[0, 0], [0, 0]]⟩ (exclClass "binary".toList nullc) cnt = decide (cnt ≤ 0) := by
      unfold countsOk nullRemovedCountsOf
      rw [hexcl, hcd]
      simp [List.filter,
        show (decide (("True".toList : Label) ≠ "False".toList)) = true from by decide,
        show (decide (("False".toList : Label) ≠ "False".toList)) = false from by decide]
    rw [Except.ok.injEq, SkillOutput.mk.injEq]
    refine ⟨rfl, rfl, hwsd, ?_, hcd, hmean, ?_⟩
    · unfold sdOf
      show List.zip _ (skillsOf _) = _
      rw [hsk]
      rfl
    · rw [hmean, hco]
  · intro extracts reds nullc thr cnt strategy out c hok hcmem hcnull hnotrue
    obtain ⟨core, hcore, hfin⟩ := userSkillReducer_ok_inv _ _ _ _ _ _ _ _ hok
    have hk := corePipeline_ok_kclass _ _ _ _ _ (by decide) hcore
    obtain ⟨e0, es, hee, hcls, hcs, hcw⟩ := getCMK_m2m_ok_inv _ _ _ _ hk
    obtain ⟨hocls, hocs, howsk, hosk, hocnt, homean⟩ :=
      finishOutput_ok_fields _ _ _ _ _ _ _ hfin
    have hcinclasses : c ∈ core.classes := by
      rw [← hocls]
      exact hcmem
    have hnot : ∀ x ∈ (getMultiClass (extracts.zip (replaceZeros
        (reds.map (fun r => 1 - npMean r.difficulty)) DIFFICULTY_FLOOR)) nullc).1,
        x ≠ c := by
      intro x hx
      rcases multiTrue_mem _ _ _ hx with h | ⟨p, hp, hxt⟩
      · rw [h]
        exact Ne.symm hcnull
      · intro hEq
        exact hnotrue p.1 (List.of_mem_zip hp).1 (hEq ▸ hxt)
    constructor
    · rw [hosk]
      unfold sdOf
      apply dictGet_zip_zero
      · rw [skillsOf_length, hcs, cmSimple_length]
      · exact hcinclasses
      · intro i hi
        rw [hcs]
        exact skills_row_zero _ _ _ _ _ hi hnot
    · rw [howsk]
      unfold wsdOf
      apply dictGet_zip_zero
      · rw [skillsOf_length, hcw, cmWeighted_length]
      · exact hcinclasses
      · intro i hi
        rw [hcw]
        exact skills_row_zero_weighted _ _ _ _ _ _ hi hnot


/-- C7 witness: the amended statement at concrete inputs: an empty binary
batch returns the all-zero record, and in the many-to-many batch whose
only judgment has true label a and chosen label b, the class b (never a
true label) has skill 0 and weighted skill 0. -/
theorem C7_witness :
    (∃ out, userSkillReducer [⟨[("b".toList, 1)], "s".toList, ["a".toList], []⟩] [⟨[1/2]⟩]
        "many-to-many".toList "NONE".toList (7/10) 10 "mean".toList = .ok out ∧
      dictGet out.skill "b".toList = 0 ∧ dictGet out.weightedSkill "b".toList = 0) ∧
    userSkillReducer [] [] "binary".toList "NONE".toList (7/10) 10 "mean".toList =
      .ok ⟨["True".toList, "False".toList], [[0, 0], [0, 0]],
        [("True".toList, 0), ("False".toList, 0)],
        [("True".toList, 0), ("False".toList, 0)],
        [("True".toList, 0), ("False".toList, 0)], 0,
        decide ((7:ℚ)/10 ≤ 0) && decide ((10:ℚ) ≤ 0)⟩ := by
  constructor
  · have hk := getConfusionMatrixK_m2m ⟨[("b".toList, 1)], "s".toList, ["a".toList], []⟩
      [] [⟨[1/2]⟩] "NONE".toList
    have hcore := corePipeline_kclass _ _ _ _
      (show "many-to-many".toList ≠ "binary".toList from by decide) _ hk
    have heval := userSkillReducer_eval _ _ _ _ (7/10) 10 "mean".toList _ hcore
    rw [finishOutput_mean] at heval
    refine ⟨_, heval, ?_⟩
    exact C7_epsilon_guard.2 _ _ _ _ _ _ _ _ heval (by decide) (by decide)
      (by decide)
  · exact C7_epsilon_guard.1 "NONE".toList (7/10) 10

/-- C5 counterexample: a many-to-many batch whose single judgment has no
true and no chosen labels gives the vocabulary [NONE] and an empty set of
non-null classes; the all strategy then vacuously reports level_up = True
while the mean strategy reports False (mean skill 0 below the threshold
0.7), so all does not imply mean. -/
theorem C5_all_without_mean :
    ∃ oA oM, userSkillReducer [⟨[], "s".toList, [], []⟩] [⟨[1/2]⟩] "many-to-many".toList
        "NONE".toList (7/10) 10 "all".toList = .ok oA ∧
      userSkillReducer [⟨[], "s".toList, [], []⟩] [⟨[1/2]⟩] "many-to-many".toList
        "NONE".toList (7/10) 10 "mean".toList = .ok oM ∧
      oA.levelUp = true ∧ oM.levelUp = false := by
  have hsdiff : replaceZeros (([⟨[1/2]⟩] : List Reduction).map
      (fun r => 1 - npMean r.difficulty)) DIFFICULTY_FLOOR = [1/2] := by
    norm_num [replaceZeros, npMean, DIFFICULTY_FLOOR]
  have hk2 : getConfusionMatrixK [⟨[], "s".toList, [], []⟩] [⟨[1/2]⟩]
      "many-to-many".toList "NONE".toList =
      .ok ⟨["NONE".toList], [[0]], [[0]]⟩ := by
    rw [getConfusionMatrixK_m2m]
    simp only [hsdiff,
      show sortU ([(⟨[], "s".toList, [], []⟩ : Extract)].flatMap intKeysOf ++
        [(⟨[], "s".toList, [], []⟩ : Extract)].flatMap trueOf) = [] from by decide,
      show ([(⟨[], "s".toList, [], []⟩ : Extract)].zip ([1/2] : List ℚ)) =
        [(⟨[], "s".toList, [], []⟩, (1/2 : ℚ))] from rfl,
      show getMultiClass [((⟨[], "s".toList, [], []⟩ : Extract), (1/2 : ℚ))] "NONE".toList =
        ([], [], []) from by decide]
    rw [Except.ok.injEq, Core.mk.injEq]
    refine ⟨rfl, ?_, ?_⟩
    · show cmSimple [] [] ([] ++ ["NONE".toList]) = _
      rw [cmSimple_eq_of_count _ _ _ [[0]] (by decide)]
      norm_num
    · show cmWeighted [] [] [] ([] ++ ["NONE".toList]) = _
      simp [cmWeighted, cmWCell]
  have hcore := corePipeline_kclass _ _ _ _
    (show "many-to-many".toList ≠ "binary".toList from by decide) _ hk2
  have hevalA := userSkillReducer_eval _ _ _ _ (7/10) 10 "all".toList _ hcore
  have hevalM := userSkillReducer_eval _ _ _ _ (7/10) 10 "mean".toList _ hcore
  rw [finishOutput_all] at hevalA
  rw [finishOutput_mean] at hevalM
  have hexcl : exclClass "many-to-many".toList "NONE".toList = "NONE".toList := by
    unfold exclClass
    rw [if_neg (by decide)]
  have hnr : nullRemovedClassesOf ⟨["NONE".toList], [[0]], [[0]]⟩ "NONE".toList = [] := by
    unfold nullRemovedClassesOf
    decide
  have hnrc : nullRemovedCountsOf ⟨["NONE".toList], [[0]], [[0]]⟩ "NONE".toList = [] := by
    unfold nullRemovedCountsOf cdOf
    rw [show rowSums [[(0:ℚ)]] = [0] from by norm_num [rowSums]]
    simp [List.filter, show (decide (("NONE".toList : Label) ≠ "NONE".toList)) = false
      from by decide]
  have hmean : meanSkillOf ⟨["NONE".toList], [[0]], [[0]]⟩ "NONE".toList = 0 := by
    unfold meanSkillOf
    rw [hnr]
    norm_num
  refine ⟨_, _, hevalA, hevalM, ?_, ?_⟩
  · show ((nullRemovedClassesOf ⟨["NONE".toList], [[0]], [[0]]⟩
        (exclClass "many-to-many".toList "NONE".toList)).all
        (fun s => decide ((7:ℚ)/10 ≤ dictGet (wsdOf ⟨["NONE".toList], [[0]], [[0]]⟩) s)) &&
      countsOk ⟨["NONE".toList], [[0]], [[0]]⟩
        (exclClass "many-to-many".toList "NONE".toList) 10) = true
    rw [hexcl, hnr]
    have h2 : countsOk ⟨["NONE".toList], [[0]], [[0]]⟩ "NONE".toList 10 = true := by
      unfold countsOk
      rw [hnrc]
      rfl
    rw [h2]
    rfl
  · show (decide ((7:ℚ)/10 ≤ meanSkillOf ⟨["NONE".toList], [[0]], [[0]]⟩
        (exclClass "many-to-many".toList "NONE".toList)) &&
      countsOk ⟨["NONE".toList], [[0]], [[0]]⟩
        (exclClass "many-to-many".toList "NONE".toList) 10) = false
    rw [hexcl, hmean]
    norm_num

/-- C5 amended: the all strategy implies the mean strategy provided the
set of non-null classes is nonempty and every per-class weighted skill
clears the threshold with the relative margin 1e-16 (thr * (1 + eps) ≤
skill); the unmodified implication fails both when the non-null class set
is empty (counterexample theorem) and, in exact arithmetic, at exact
threshold boundaries, because the epsilon in the denominator of the mean
deflates it slightly. -/
theorem C5_all_implies_mean_with_margin (extracts : List Extract) (reds : List Reduction)
    (mode nullc : Label) (thr cnt : ℚ) (oA oM : SkillOutput)
    (hthr : 0 ≤ thr)
    (hokA : userSkillReducer extracts reds mode nullc thr cnt "all".toList = .ok oA)
    (hokM : userSkillReducer extracts reds mode nullc thr cnt "mean".toList = .ok oM)
    (hlvl : oA.levelUp = true)
    (hne : oA.classes.filter (fun c => c ≠ exclClass mode nullc) ≠ [])
    (hmargin : ∀ c ∈ oA.classes.filter (fun c => c ≠ exclClass mode nullc),
      thr * (1 + EPS) ≤ dictGet oA.weightedSkill c) :
    oM.levelUp = true := by
  obtain ⟨cA, hcA, hfA⟩ := userSkillReducer_ok_inv _ _ _ _ _ _ _ _ hokA
  obtain ⟨cM, hcM, hfM⟩ := userSkillReducer_ok_inv _ _ _ _ _ _ _ _ hokM
  rw [hcA, Except.ok.injEq] at hcM
  subst hcM
  rw [finishOutput_all, Except.ok.injEq] at hfA
  rw [finishOutput_mean, Except.ok.injEq] at hfM
  rw [← hfA] at hlvl hne hmargin
  rw [← hfM]
  show (decide (thr ≤ meanSkillOf cA (exclClass mode nullc)) &&
    countsOk cA (exclClass mode nullc) cnt) = true
  have hlvl2 : ((nullRemovedClassesOf cA (exclClass mode nullc)).all
      (fun s => decide (thr ≤ dictGet (wsdOf cA) s)) &&
      countsOk cA (exclClass mode nullc) cnt) = true := hlvl
  have hcounts : countsOk cA (exclClass mode nullc) cnt = true := by
    rw [Bool.and_eq_true] at hlvl2
    exact hlvl2.2
  have hnr : nullRemovedClassesOf cA (exclClass mode nullc) ≠ [] := hne
  have hmargin2 : ∀ c ∈ nullRemovedClassesOf cA (exclClass mode nullc),
      thr * (1 + EPS) ≤ dictGet (wsdOf cA) c := hmargin
  have hms : thr ≤ meanSkillOf cA (exclClass mode nullc) := by
    unfold meanSkillOf
    have hlen1 : 1 ≤ (nullRemovedClassesOf cA (exclClass mode nullc)).length := by
      rcases hl : nullRemovedClassesOf cA (exclClass mode nullc) with _ | ⟨a, t⟩
      · exact absurd hl hnr
      · simp
    have hsum : (((nullRemovedClassesOf cA (exclClass mode nullc)).map
        (fun k => dictGet (wsdOf cA) k)).length : ℚ) * (thr * (1 + EPS)) ≤
        ((nullRemovedClassesOf cA (exclClass mode nullc)).map
          (fun k => dictGet (wsdOf cA) k)).sum := by
      apply length_mul_le_sum
      intro y hy
      rcases List.mem_map.1 hy with ⟨k, hk, hky⟩
      rw [← hky]
      exact hmargin2 k hk
    rw [List.length_map] at hsum
    have hN : (1:ℚ) ≤ ((nullRemovedClassesOf cA (exclClass mode nullc)).length : ℚ) := by
      exact_mod_cast hlen1
    have hEPS : (0:ℚ) < EPS := by norm_num [EPS]
    have hpos : (0:ℚ) <
        ((nullRemovedClassesOf cA (exclClass mode nullc)).length : ℚ) + EPS := by
      nlinarith
    rw [le_div_iff hpos]
    nlinarith [hsum, mul_nonneg (mul_nonneg (sub_nonneg.2 hN) hthr) (le_of_lt hEPS)]
  rw [hcounts, Bool.and_true]
  exact decide_eq_true hms

/-- C5 witness: a binary batch with one success of difficulty 0.2,
threshold 0.5 and count threshold 1: the all strategy levels up and the
amended implication gives level up for the mean strategy too. -/
theorem C5_witness :
    ∃ oA oM, userSkillReducer [⟨[], "s".toList, [], [1]⟩] [⟨[2/10]⟩] "binary".toList
        "NONE".toList (1/2) 1 "all".toList = .ok oA ∧
      userSkillReducer [⟨[], "s".toList, [], [1]⟩] [⟨[2/10]⟩] "binary".toList
        "NONE".toList (1/2) 1 "mean".toList = .ok oM ∧
      oA.levelUp = true ∧ oM.levelUp = true := by
  have hbin : getUserSkillBinary [⟨[], "s".toList, [], [1]⟩] [⟨[2/10]⟩] =
      ([[1, 0], [0, 0]], [[8/10, 0], [0, 0]]) := by
    norm_num [getUserSkillBinary, difficultyMin, npMinInitial0, DIFFICULTY_FLOOR,
      replaceZeros, List.filter, max_def, min_def,
      show ((1:Int) == 0) = false from rfl, show ((1:Int) == 1) = true from rfl]
  have hcore : (corePipeline [⟨[], "s".toList, [], [1]⟩] [⟨[2/10]⟩] "binary".toList
      "NONE".toList).2 = .ok ⟨["True".toList, "False".toList], [[1, 0], [0, 0]],
        [[8/10, 0], [0, 0]]⟩ := by
    rw [corePipeline_binary]
    show Except.ok _ = _
    rw [hbin]
  have hevalA := userSkillReducer_eval _ _ _ _ (1/2) 1 "all".toList _ hcore
  have hevalM := userSkillReducer_eval _ _ _ _ (1/2) 1 "mean".toList _ hcore
  rw [finishOutput_all] at hevalA
  rw [finishOutput_mean] at hevalM
  have hexcl : exclClass "binary".toList "NONE".toList = "False".toList := by
    unfold exclClass
    rw [if_pos rfl]
  have hwsd : wsdOf ⟨["True".toList, "False".toList], [[1, 0], [0, 0]],
      [[8/10, 0], [0, 0]]⟩ =
      [("True".toList, (8/10) / (8/10 + EPS)), ("False".toList, 0)] := by
    unfold wsdOf
    show List.zip _ (skillsOf _) = _
    rw [skillsOf_pair]
    norm_num
  have hcd : cdOf ⟨["True".toList, "False".toList], [[1, 0], [0, 0]],
      [[8/10, 0], [0, 0]]⟩ = [("True".toList, 1), ("False".toList, 0)] := by
    unfold cdOf
    show List.zip _ (rowSums _) = _
    norm_num [rowSums]
  have hnr : nullRemovedClassesOf ⟨["True".toList, "False".toList], [[1, 0], [0, 0]],
      [[8/10, 0], [0, 0]]⟩ "False".toList = ["True".toList] := by
    unfold nullRemovedClassesOf
    decide
  have hdT : dictGet [("True".toList, (8:ℚ)/10 / (8/10 + EPS)), ("False".toList, 0)]
      "True".toList = (8:ℚ)/10 / (8/10 + EPS) := by
    simp [dictGet, List.lookup,
      show (("True".toList : Label) == "True".toList) = true from by decide]
  have hskillT : (1:ℚ)/2 * (1 + EPS) ≤ (8:ℚ)/10 / (8/10 + EPS) := by
    rw [le_div_iff (by norm_num [EPS])]
    norm_num [EPS]
  have hco : countsOk ⟨["True".toList, "False".toList], [[1, 0], [0, 0]],
      [[8/10, 0], [0, 0]]⟩ (exclClass "binary".toList "NONE".toList) 1 = true := by
    unfold countsOk nullRemovedCountsOf
    rw [hexcl, hcd]
    simp [List.filter,
      show (decide (("True".toList : Label) ≠ "False".toList)) = true from by decide,
      show (decide (("False".toList : Label) ≠ "False".toList)) = false from by decide]
  have hA : ((nullRemovedClassesOf ⟨["True".toList, "False".toList], [[1, 0], [0, 0]],
      [[8/10, 0], [0, 0]]⟩ (exclClass "binary".toList "NONE".toList)).all
      (fun s => decide ((1:ℚ)/2 ≤ dictGet (wsdOf ⟨["True".toList, "False".toList],
        [[1, 0], [0, 0]], [[8/10, 0], [0, 0]]⟩) s)) &&
      countsOk ⟨["True".toList, "False".toList], [[1, 0], [0, 0]],
        [[8/10, 0], [0, 0]]⟩ (exclClass "binary".toList "NONE".toList) 1) = true := by
    rw [hexcl] at hco ⊢
    rw [hco, Bool.and_true, hnr, hwsd]
    have hle : (1:ℚ)/2 ≤ (8:ℚ)/10 / (8/10 + EPS) := by
      have hE : (0:ℚ) < EPS := by norm_num [EPS]
      nlinarith [hskillT]
    rw [List.all_cons, List.all_nil, Bool.and_true, hdT]
    exact decide_eq_true hle
  have hne9 : nullRemovedClassesOf ⟨["True".toList, "False".toList], [[1, 0], [0, 0]],
      [[8/10, 0], [0, 0]]⟩ (exclClass "binary".toList "NONE".toList) ≠ [] := by
    rw [hexcl, hnr]
    simp
  have hmar9 : ∀ c ∈ nullRemovedClassesOf ⟨["True".toList, "False".toList],
      [[1, 0], [0, 0]], [[8/10, 0], [0, 0]]⟩ (exclClass "binary".toList "NONE".toList),
      (1:ℚ)/2 * (1 + EPS) ≤
        dictGet (wsdOf ⟨["True".toList, "False".toList], [[1, 0], [0, 0]],
          [[8/10, 0], [0, 0]]⟩) c := by
    intro c hc
    rw [hexcl] at hc
    rw [hnr] at hc
    rcases List.mem_singleton.1 hc with rfl
    rw [hwsd, hdT]
    exact hskillT
  refine ⟨_, _, hevalA, hevalM, hA, ?_⟩
  exact C5_all_implies_mean_with_margin _ _ _ _ _ _ _ _ (by norm_num) hevalA hevalM hA
    hne9 hmar9


/-- C10: whenever the reducer returns a result on difficulty records whose
raw values lie in [0, 1] (the data-model invariant), every value of the
returned skill and weighted-skill mappings lies in [0, 1]: every matrix
entry is non-negative, the diagonal entry never exceeds its row sum, and
each skill is a diagonal entry divided by its row sum plus epsilon. -/
theorem C10_skills_in_unit_interval (extracts : List Extract) (reds : List Reduction)
    (mode nullc : Label) (thr cnt : ℚ) (strategy : Label) (out : SkillOutput)
    (hd : ∀ red ∈ reds, ∀ x ∈ red.difficulty, 0 ≤ x ∧ x ≤ 1)
    (h : userSkillReducer extracts reds mode nullc thr cnt strategy = .ok out) :
    (∀ p ∈ out.skill, 0 ≤ p.2 ∧ p.2 ≤ 1) ∧
    (∀ p ∈ out.weightedSkill, 0 ≤ p.2 ∧ p.2 ≤ 1) := by
  obtain ⟨core, hcore, hfin⟩ := userSkillReducer_ok_inv _ _ _ _ _ _ _ _ h
  obtain ⟨hocls, hocs, howsk, hosk, hocnt, homean⟩ :=
    finishOutput_ok_fields _ _ _ _ _ _ _ hfin
  have hmat : (∀ row ∈ core.cs, ∀ x ∈ row, 0 ≤ x) ∧
      (∀ row ∈ core.cw, ∀ x ∈ row, 0 ≤ x) := by
    by_cases hb : mode = "binary".toList
    · subst hb
      have hcoreeq := corePipeline_ok_binary _ _ _ _ hcore
      rw [hcoreeq]
      exact ⟨(binary_matrices_nonneg extracts reds hd).1,
        (binary_matrices_nonneg extracts reds hd).2⟩
    · exact getCMK_matrices_nonneg _ _ _ _ _ hd
        (corePipeline_ok_kclass _ _ _ _ _ hb hcore)
  constructor
  · rw [hosk]
    unfold sdOf
    rintro ⟨c, v⟩ hp
    exact skillsOf_mem_bounds core.cs hmat.1 v (List.of_mem_zip hp).2
  · rw [howsk]
    unfold wsdOf
    rintro ⟨c, v⟩ hp
    exact skillsOf_mem_bounds core.cw hmat.2 v (List.of_mem_zip hp).2

/-- C10 witness: the single-success binary scenario has all its skill and
weighted-skill values inside [0, 1]. -/
theorem C10_witness :
    ∃ out, userSkillReducer [⟨[], "s".toList, [], [1]⟩] [⟨[2/10]⟩] "binary".toList
        "NONE".toList (7/10) 10 "mean".toList = .ok out ∧
      (∀ p ∈ out.skill, 0 ≤ p.2 ∧ p.2 ≤ 1) ∧
      (∀ p ∈ out.weightedSkill, 0 ≤ p.2 ∧ p.2 ≤ 1) := by
  have hbin : getUserSkillBinary [⟨[], "s".toList, [], [1]⟩] [⟨[2/10]⟩] =
      ([[1, 0], [0, 0]], [[8/10, 0], [0, 0]]) := by
    norm_num [getUserSkillBinary, difficultyMin, npMinInitial0, DIFFICULTY_FLOOR,
      replaceZeros, List.filter, max_def, min_def,
      show ((1:Int) == 0) = false from rfl, show ((1:Int) == 1) = true from rfl]
  have hcore : (corePipeline [⟨[], "s".toList, [], [1]⟩] [⟨[2/10]⟩] "binary".toList
      "NONE".toList).2 = .ok ⟨["True".toList, "False".toList], [[1, 0], [0, 0]],
        [[8/10, 0], [0, 0]]⟩ := by
    rw [corePipeline_binary]
    show Except.ok _ = _
    rw [hbin]
  have heval := userSkillReducer_eval _ _ _ _ (7/10) 10 "mean".toList _ hcore
  rw [finishOutput_mean] at heval
  refine ⟨_, heval, ?_⟩
  exact C10_skills_in_unit_interval _ _ _ _ _ _ _ _
    (by
      intro red hred x hx
      rcases List.mem_singleton.1 hred with rfl
      rcases List.mem_singleton.1 hx with rfl
      norm_num)
    heval


/-- C4 (amended): on a nonempty batch in which every judgment carries exactly
one true label and exactly one chosen label, where the null class collides
with no answer key or true label, and where every inverted mean difficulty is
either zero (and hence floor-substituted) or at least DIFFICULTY_FLOOR, the
one-to-one and many-to-many modes agree class by class on the shared
vocabulary: the many-to-many vocabulary is the one-to-one vocabulary plus the
null class, and for every shared class the count, the skill and the weighted
skill coincide.  (The confusion matrices themselves are never identical: the
many-to-many ones carry an extra null row and column, and an incorrect
judgment lands at (true, null) and (null, chosen) instead of (true, chosen).) -/
theorem C4_singleton_agreement (extracts : List Extract) (reds : List Reduction)
    (nullc : Label) (thr cnt : ℚ) (strategy : Label) (out1 out2 : SkillOutput)
    (hs : ∀ e ∈ extracts, ∃ t c, trueOf e = [t] ∧ chosenOf e = [c])
    (hnull : ∀ e ∈ extracts, ∀ x ∈ intKeysOf e ++ trueOf e, x ≠ nullc)
    (hdm : ∀ r ∈ reds,
      1 - npMean r.difficulty = 0 ∨ DIFFICULTY_FLOOR ≤ 1 - npMean r.difficulty)
    (h1 : userSkillReducer extracts reds "one-to-one".toList nullc thr cnt strategy
      = .ok out1)
    (h2 : userSkillReducer extracts reds "many-to-many".toList nullc thr cnt strategy
      = .ok out2) :
    out2.classes = out1.classes ++ [nullc] ∧
    ∀ k ∈ out1.classes,
      dictGet out1.count k = dictGet out2.count k ∧
      dictGet out1.skill k = dictGet out2.skill k ∧
      dictGet out1.weightedSkill k = dictGet out2.weightedSkill k := by
  obtain ⟨core1, hcp1, hfin1⟩ := userSkillReducer_ok_inv _ _ _ _ _ _ _ _ h1
  obtain ⟨core2, hcp2, hfin2⟩ := userSkillReducer_ok_inv _ _ _ _ _ _ _ _ h2
  have hk1 := corePipeline_ok_kclass _ _ _ _ _ (by decide) hcp1
  have hk2 := corePipeline_ok_kclass _ _ _ _ _ (by decide) hcp2
  obtain ⟨hcls1, hcs1, hcw1⟩ := getCMK_o2o_ok_inv _ _ _ _ hk1
  obtain ⟨e0, es, hexts, hcls2, hcs2, hcw2⟩ := getCMK_m2m_ok_inv _ _ _ _ hk2
  obtain ⟨ho1cls, _, ho1wsk, ho1sk, ho1cnt, _⟩ := finishOutput_ok_fields _ _ _ _ _ _ _ hfin1
  obtain ⟨ho2cls, _, ho2wsk, ho2sk, ho2cnt, _⟩ := finishOutput_ok_fields _ _ _ _ _ _ _ hfin2
  have hndc : (sortU (extracts.flatMap intKeysOf ++ extracts.flatMap trueOf)).Nodup :=
    nodup_sortU _
  have hknn := classes_ne_null extracts nullc hnull
  have hnnc : nullc ∉ sortU (extracts.flatMap intKeysOf ++ extracts.flatMap trueOf) :=
    fun h => (hknn nullc h) rfl
  have hndc2 : (sortU (extracts.flatMap intKeysOf ++ extracts.flatMap trueOf)
      ++ [nullc]).Nodup := by
    rw [List.nodup_append]
    refine ⟨hndc, List.nodup_singleton _, ?_⟩
    intro x hx hx2
    rw [List.mem_singleton] at hx2
    exact hknn x hx hx2
  have hsd : ∀ p ∈ extracts.zip (replaceZeros
      (reds.map (fun r => 1 - npMean r.difficulty)) DIFFICULTY_FLOOR),
      DIFFICULTY_FLOOR ≤ p.2 :=
    fun p hp => sdiff_floor_le reds hdm p.2 (List.of_mem_zip hp).2
  have hsingle : ∀ p ∈ extracts.zip (replaceZeros
      (reds.map (fun r => 1 - npMean r.difficulty)) DIFFICULTY_FLOOR),
      ∃ t c, trueOf p.1 = [t] ∧ chosenOf p.1 = [c] ∧ t ≠ nullc ∧ c ≠ nullc := by
    intro p hp
    obtain ⟨t, c, ht, hc⟩ := hs p.1 (List.of_mem_zip hp).1
    refine ⟨t, c, ht, hc, ?_, ?_⟩
    · exact hnull p.1 (List.of_mem_zip hp).1 t
        (List.mem_append_right _ (by rw [ht]; exact List.mem_singleton_self t))
    · exact hnull p.1 (List.of_mem_zip hp).1 c
        (List.mem_append_left _ (chosen_subset_intKeys p.1 c
          (by rw [hc]; exact List.mem_singleton_self c)))
  have hmemC2 : ∀ q ∈ (getOneToOne (extracts.zip (replaceZeros
        (reds.map (fun r => 1 - npMean r.difficulty)) DIFFICULTY_FLOOR))).1.zip
        (getOneToOne (extracts.zip (replaceZeros
        (reds.map (fun r => 1 - npMean r.difficulty)) DIFFICULTY_FLOOR))).2.1,
      q.2 ∈ sortU (extracts.flatMap intKeysOf ++ extracts.flatMap trueOf) := by
    intro q hq
    have h := (List.of_mem_zip hq).2
    simp only [getOneToOne] at h
    rcases List.mem_flatMap.1 h with ⟨p, hp, hqp⟩
    exact mem_sortU.2 (List.mem_append_left _ (List.mem_flatMap.2
      ⟨p.1, (List.of_mem_zip hp).1, chosen_subset_intKeys p.1 q.2 hqp⟩))
  have hmemC1 : ∀ q ∈ (getMultiClass (extracts.zip (replaceZeros
        (reds.map (fun r => 1 - npMean r.difficulty)) DIFFICULTY_FLOOR)) nullc).1.zip
        (getMultiClass (extracts.zip (replaceZeros
        (reds.map (fun r => 1 - npMean r.difficulty)) DIFFICULTY_FLOOR)) nullc).2.1,
      q.2 ∈ sortU (extracts.flatMap intKeysOf ++ extracts.flatMap trueOf) ++ [nullc] := by
    intro q hq
    rcases multiChosen_mem _ nullc q.2 (List.of_mem_zip hq).2 with h | ⟨p, hp, hqp⟩
    · exact List.mem_append_right _ (h ▸ List.mem_singleton_self nullc)
    · exact List.mem_append_left _ (mem_sortU.2 (List.mem_append_left _
        (List.mem_flatMap.2 ⟨p.1, (List.of_mem_zip hp).1,
          chosen_subset_intKeys p.1 q.2 hqp⟩)))
  have hmemW2 : ∀ q ∈ ((getOneToOne (extracts.zip (replaceZeros
        (reds.map (fun r => 1 - npMean r.difficulty)) DIFFICULTY_FLOOR))).1.zip
        (getOneToOne (extracts.zip (replaceZeros
        (reds.map (fun r => 1 - npMean r.difficulty)) DIFFICULTY_FLOOR))).2.1).zip
        (getOneToOne (extracts.zip (replaceZeros
        (reds.map (fun r => 1 - npMean r.difficulty)) DIFFICULTY_FLOOR))).2.2,
      q.1.2 ∈ sortU (extracts.flatMap intKeysOf ++ extracts.flatMap trueOf) :=
    fun q hq => hmemC2 q.1 (List.of_mem_zip hq).1
  have hmemW1 : ∀ q ∈ ((getMultiClass (extracts.zip (replaceZeros
        (reds.map (fun r => 1 - npMean r.difficulty)) DIFFICULTY_FLOOR)) nullc).1.zip
        (getMultiClass (extracts.zip (replaceZeros
        (reds.map (fun r => 1 - npMean r.difficulty)) DIFFICULTY_FLOOR)) nullc).2.1).zip
        (getMultiClass (extracts.zip (replaceZeros
        (reds.map (fun r => 1 - npMean r.difficulty)) DIFFICULTY_FLOOR)) nullc).2.2,
      q.1.2 ∈ sortU (extracts.flatMap intKeysOf ++ extracts.flatMap trueOf) ++ [nullc] :=
    fun q hq => hmemC1 q.1 (List.of_mem_zip hq).1
  constructor
  · rw [ho2cls, ho1cls, hcls2, hcls1]
  · intro k hk
    rw [ho1cls, hcls1] at hk
    have hkne := hknn k hk
    obtain ⟨hcnt2, hdiag2, hwrow2, hwdiag2⟩ := C4_count_core nullc k hkne _ hsingle hsd
    refine ⟨?_, ?_, ?_⟩
    · rw [ho1cnt, ho2cnt]
      unfold cdOf
      rw [hcs1, hcs2, hcls1, hcls2]
      rw [rowSums_cmSimple _ _ _ hndc hmemC2, rowSums_cmSimple _ _ _ hndc2 hmemC1]
      rw [dictGet_zip_map _ _ k hk, dictGet_zip_map _ _ k (List.mem_append_left _ hk)]
      rw [hcnt2]
    · rw [ho1sk, ho2sk]
      unfold sdOf
      rw [hcs1, hcs2, hcls1, hcls2]
      rw [skillsOf_cmSimple _ _ _ hndc hmemC2, skillsOf_cmSimple _ _ _ hndc2 hmemC1]
      rw [dictGet_zip_map _ _ k hk, dictGet_zip_map _ _ k (List.mem_append_left _ hk)]
      simp only [cmCell]
      rw [hdiag2, hcnt2]
    · rw [ho1wsk, ho2wsk]
      unfold wsdOf
      rw [hcw1, hcw2, hcls1, hcls2]
      rw [skillsOf_cmWeighted _ _ _ _ hndc hmemW2, skillsOf_cmWeighted _ _ _ _ hndc2 hmemW1]
      rw [dictGet_zip_map _ _ k hk, dictGet_zip_map _ _ k (List.mem_append_left _ hk)]
      rw [hwdiag2, hwrow2]


/-- C4 counterexample: two batches whose every judgment has exactly one true
label and exactly one chosen label on which the two modes disagree.  With
true label a and chosen label b, one-to-one yields the 2x2 simple matrix
[[0,1],[0,0]] while many-to-many yields the 3x3 matrix
[[0,0,1],[0,0,0],[0,1,0]] (the incorrect judgment lands at (a, NONE) and
(NONE, b), not at (a, b)).  With true = chosen = a and raw difficulty 0.99,
the weight 0.01 stays below DIFFICULTY_FLOOR: one-to-one clamps it to 0.05
while many-to-many does not, so even the per-class weighted skill of the
shared class a differs. -/
theorem C4_modes_not_identical :
    ((trueOf ⟨[("b".toList, 1)], "s".toList, ["a".toList], []⟩).length = 1 ∧
     (chosenOf ⟨[("b".toList, 1)], "s".toList, ["a".toList], []⟩).length ≤ 1) ∧
    ((trueOf ⟨[("a".toList, 1)], "s".toList, ["a".toList], []⟩).length = 1 ∧
     (chosenOf ⟨[("a".toList, 1)], "s".toList, ["a".toList], []⟩).length ≤ 1) ∧
    ∃ out1 out2 out3 out4,
      userSkillReducer [⟨[("b".toList, 1)], "s".toList, ["a".toList], []⟩] [⟨[1/2]⟩]
          "one-to-one".toList "NONE".toList (7/10) 1 "mean".toList = .ok out1 ∧
      userSkillReducer [⟨[("b".toList, 1)], "s".toList, ["a".toList], []⟩] [⟨[1/2]⟩]
          "many-to-many".toList "NONE".toList (7/10) 1 "mean".toList = .ok out2 ∧
      out1.confusionSimple = [[0, 1], [0, 0]] ∧
      out2.confusionSimple = [[0, 0, 1], [0, 0, 0], [0, 1, 0]] ∧
      out1.confusionSimple ≠ out2.confusionSimple ∧
      userSkillReducer [⟨[("a".toList, 1)], "s".toList, ["a".toList], []⟩] [⟨[99/100]⟩]
          "one-to-one".toList "NONE".toList (7/10) 1 "mean".toList = .ok out3 ∧
      userSkillReducer [⟨[("a".toList, 1)], "s".toList, ["a".toList], []⟩] [⟨[99/100]⟩]
          "many-to-many".toList "NONE".toList (7/10) 1 "mean".toList = .ok out4 ∧
      dictGet out3.weightedSkill "a".toList ≠ dictGet out4.weightedSkill "a".toList := by
  refine ⟨⟨by decide, by decide⟩, ⟨by decide, by decide⟩, ?_⟩
  have h1 := C4evalA_o2o
  rw [finishOutput_mean] at h1
  have h2 := C4evalA_m2m
  rw [finishOutput_mean] at h2
  have h3 := C4evalB_o2o
  rw [finishOutput_mean] at h3
  have h4 := C4evalB_m2m
  rw [finishOutput_mean] at h4
  refine ⟨_, _, _, _, h1, h2, rfl, rfl, ?_, h3, h4, ?_⟩
  · intro h
    have hlen := congrArg List.length h
    simp at hlen
  · have hv3 : dictGet (wsdOf ⟨["a".toList], [[1]], [[1/20]]⟩) "a".toList =
        (1/20) / (1/20 + EPS) := by
      unfold wsdOf
      rw [skillsOf_single]
      simp +decide [dictGet, List.lookup]
    have hv4 : dictGet (wsdOf ⟨["a".toList, "NONE".toList], [[1, 0], [0, 0]],
        [[1/100, 0], [0, 0]]⟩) "a".toList = (1/100) / (1/100 + 0 + EPS) := by
      unfold wsdOf
      rw [skillsOf_pair]
      simp +decide [dictGet, List.lookup]
    show dictGet (wsdOf ⟨["a".toList], [[1]], [[1/20]]⟩) "a".toList ≠
      dictGet (wsdOf ⟨["a".toList, "NONE".toList], [[1, 0], [0, 0]],
        [[1/100, 0], [0, 0]]⟩) "a".toList
    rw [hv3, hv4]
    norm_num [EPS]

/-- C4 witness: on the first counterexample batch (one true label a, one
chosen label b, difficulty weight 1/2 above the floor) both modes succeed and
the amended agreement holds: the many-to-many vocabulary is the one-to-one
vocabulary plus NONE, and count, skill and weighted skill agree on every
shared class. -/
theorem C4_witness :
    ∃ out1 out2,
      userSkillReducer [⟨[("b".toList, 1)], "s".toList, ["a".toList], []⟩] [⟨[1/2]⟩]
          "one-to-one".toList "NONE".toList (7/10) 1 "mean".toList = .ok out1 ∧
      userSkillReducer [⟨[("b".toList, 1)], "s".toList, ["a".toList], []⟩] [⟨[1/2]⟩]
          "many-to-many".toList "NONE".toList (7/10) 1 "mean".toList = .ok out2 ∧
      out2.classes = out1.classes ++ ["NONE".toList] ∧
      ∀ k ∈ out1.classes,
        dictGet out1.count k = dictGet out2.count k ∧
        dictGet out1.skill k = dictGet out2.skill k ∧
        dictGet out1.weightedSkill k = dictGet out2.weightedSkill k := by
  have h1 := C4evalA_o2o
  rw [finishOutput_mean] at h1
  have h2 := C4evalA_m2m
  rw [finishOutput_mean] at h2
  have hmain := C4_singleton_agreement _ _ _ _ _ _ _ _
    (by
      intro e he
      rcases List.mem_singleton.1 he with rfl
      exact ⟨"a".toList, "b".toList, by decide, by decide⟩)
    (by
      intro e he
      rcases List.mem_singleton.1 he with rfl
      decide)
    (by
      intro r hr
      rcases List.mem_singleton.1 hr with rfl
      right
      norm_num [npMean, DIFFICULTY_FLOOR])
    h1 h2
  exact ⟨_, _, h1, h2, hmain.1, hmain.2⟩

end UserSkill
